import Mathlib

/-!
OpenPGP packets: SKESK (tag 3) and MDC (tag 19).

A shallow embedding of `src/Packets/Tag3.cpp` and `src/Packets/Tag19.cpp`.

* A `std::string` is a list of octets; an octet is a `Fin 256`.
* `std::string::size_type` is a 64-bit unsigned integer: offsets are natural
  numbers and every addition of the source is taken modulo `2 ^ 64`.
* A member function that mutates the packet (and the offset passed by
  reference) returns a `Run`: the state reached, together with the exception
  thrown, if any.  The assignments made before a `throw` stay visible in the
  state.
* The S2K classes, the symmetric-algorithm tables and the CFB routines are not
  part of the two files; the packet code is embedded over an interface for
  them (`S2KOps`, `SymOps`).
* The key object (grammar, derived view, merge), the packet framing with the
  literal data packet, the key generation config and the hex helpers have only
  their tests among the sources; their definitions follow the specification and
  say so.
-/

namespace OpenPGP

/-- One octet of a `std::string`. -/
abbrev Octet := Fin 256

/-- Contents of a `std::string`. -/
abbrev ByteString := List Octet

/-- Number of values of `std::string::size_type`. -/
def SIZE_MOD : Nat := 18446744073709551616

/-- What a call can end with instead of returning. -/
inductive Exn where
  /-- A thrown `std::runtime_error` with its message. -/
  | runtime_error (what : String)
  /-- A thrown `std::out_of_range` (from `substr` or from `map::at`). -/
  | out_of_range
  /-- A read past the terminator of a string: no defined behaviour. -/
  | past_the_end
  /-- A member call through a null `shared_ptr`: no defined behaviour. -/
  | null_dereference
  deriving DecidableEq, Repr

/-- State reached by a mutating call and the exception it threw, if any. -/
structure Run (α : Type) where
  state : α
  thrown : Option Exn

/-- The enumerators of `Status` named in the two files; `OTHER` stands for the
remaining enumerators, which only an S2K's own `valid()` can return. -/
inductive Status where
  | SUCCESS
  | INVALID_VERSION
  | INVALID_SYMMETRIC_ENCRYPTION_ALGORITHM
  | MISSING_S2K
  | INVALID_SHA1_HASH
  | OTHER (code : Nat)
  deriving DecidableEq, Repr

/-- The call `data[i]` on a `const std::string &`: the octet at `i`, the terminator
`0` at `i = size()`, nothing defined beyond. -/
def string_at (data : ByteString) (i : Nat) : Except Exn Octet :=
  if h : i < data.length then .ok data[i]
  else if i = data.length then .ok 0
  else .error .past_the_end

/-- The call `data.substr(pos, n)`: throws when `pos > size()`, otherwise the at most
`n` octets from `pos` on. -/
def substr (data : ByteString) (pos n : Nat) : Except Exn ByteString :=
  if data.length < pos then .error .out_of_range
  else .ok ((data.drop pos).take n)

/-- Decimal digits of a natural number below 1000. -/
def decimal (n : Nat) : String :=
  let d (k : Nat) : Char := Char.ofNat (48 + k % 10)
  if n < 10 then String.mk [d n]
  else if n < 100 then String.mk [d (n / 10), d n]
  else String.mk [d (n / 100), d (n / 10), d n]

/-- The call `std::to_string(c)` for a `char c`: the `char` is promoted to `int`; `char`
is signed on the platforms the library builds on, so octets from 128 on print
as negative numbers. -/
def to_string_char (c : Octet) : String :=
  if c.val < 128 then decimal c.val else "-" ++ decimal (256 - c.val)

namespace S2K

/-- The three S2K classes `S2K0`, `S2K1`, `S2K3` the packet reader instantiates. -/
inductive Kind where
  | S2K0
  | S2K1
  | S2K3
  deriving DecidableEq, Repr

namespace ID

/-- Modelled from the spec: the header with the S2K type ids is missing; simple is 0
(RFC 4880 section 3.7.1). -/
def SIMPLE_S2K : Octet := 0

/-- Modelled from the spec: salted is 1. -/
def SALTED_S2K : Octet := 1

/-- Modelled from the spec: iterated-and-salted is 3. -/
def ITERATED_AND_SALTED_S2K : Octet := 3

end ID

end S2K

namespace S2K

/-- Modelled from the spec: the S2K classes are missing.  "Tagged variant {simple, salted,
iterated-and-salted} over (hash-id, [8-byte salt], [coded iteration count])". -/
inductive Specifier where
  | simple (hash : Octet)
  | salted (hash : Octet) (salt : ByteString)
  | iterated (hash : Octet) (salt : ByteString) (count : Octet)
  deriving DecidableEq, Repr

namespace Specifier

/-- Modelled from the spec: a default-constructed object of each S2K class. -/
def make : Kind → Specifier
  | .S2K0 => .simple 0
  | .S2K1 => .salted 0 []
  | .S2K3 => .iterated 0 [] 0

/-- Modelled from the spec: the type id of each variant. -/
def get_type : Specifier → Octet
  | .simple _ => ID.SIMPLE_S2K
  | .salted _ _ => ID.SALTED_S2K
  | .iterated _ _ _ => ID.ITERATED_AND_SALTED_S2K

/-- Modelled from the spec: the S2K-specifier decoder.  The type octet, the hash id, then
for the salted variants 8 octets of salt, then for the iterated variant the coded
count; error kind `truncated` when the data ends early, `invalid-s2k` when the type
octet is not the variant's. -/
def read (s : Specifier) (data : ByteString) (pos : Nat) : Run (Specifier × Nat) :=
  match s, data.drop pos with
  | .simple _, t :: h :: _ =>
    if t = ID.SIMPLE_S2K then ⟨(.simple h, pos + 2), none⟩
    else ⟨(s, pos), some (.runtime_error "invalid-s2k")⟩
  | .salted _ _, t :: h :: rest =>
    if t = ID.SALTED_S2K then
      if 8 ≤ rest.length then ⟨(.salted h (rest.take 8), pos + 10), none⟩
      else ⟨(s, pos), some (.runtime_error "truncated")⟩
    else ⟨(s, pos), some (.runtime_error "invalid-s2k")⟩
  | .iterated _ _ _, t :: h :: rest =>
    if t = ID.ITERATED_AND_SALTED_S2K then
      if 9 ≤ rest.length then ⟨(.iterated h (rest.take 8) (rest.getD 8 0), pos + 11), none⟩
      else ⟨(s, pos), some (.runtime_error "truncated")⟩
    else ⟨(s, pos), some (.runtime_error "invalid-s2k")⟩
  | _, _ => ⟨(s, pos), some (.runtime_error "truncated")⟩

/-- Modelled from the spec: the S2K-specifier encoder, the fields in the order the
decoder reads them. -/
def write : Specifier → ByteString
  | .simple h => [ID.SIMPLE_S2K, h]
  | .salted h salt => [ID.SALTED_S2K, h] ++ salt
  | .iterated h salt c => [ID.ITERATED_AND_SALTED_S2K, h] ++ salt ++ [c]

/-- Modelled from the spec: a specifier is valid when its hash id is one of the listed
hashes and its salt, if it has one, is 8 octets long. -/
def valid (hash_known : Octet → Bool) : Specifier → Status
  | .simple h => if hash_known h then .SUCCESS else .OTHER 0
  | .salted h salt => if hash_known h then (if salt.length = 8 then .SUCCESS else .OTHER 1) else .OTHER 0
  | .iterated h salt _ =>
    if hash_known h then (if salt.length = 8 then .SUCCESS else .OTHER 1) else .OTHER 0

/-- Modelled from the spec: the octet count coded by the count octet `c`,
`(16 + (c & 15)) << ((c >> 4) + 6)` (RFC 4880 section 3.7.1.3). -/
def coded_count (c : Octet) : Nat := (16 + c.val % 16) * 2 ^ (c.val / 16 + 6)

/-- Modelled from the spec: "Derives a byte string of requested length by hashing
passphrase (||salt||) zero-or-more times then concatenating parallel hash chains for
longer outputs".  Chain number `i` hashes `i` zero octets followed by the material;
`use_hash` is the external hash primitive. -/
def run (use_hash : Octet → ByteString → ByteString) (s : Specifier) (pass : ByteString)
    (n : Nat) : Except Exn ByteString :=
  let chains (h : Octet) (material : ByteString) : ByteString :=
    ((List.range n).map (fun i => use_hash h (List.replicate i 0 ++ material))).flatten.take n
  match s with
  | .simple h => .ok (chains h pass)
  | .salted h salt => .ok (chains h (salt ++ pass))
  | .iterated h salt c =>
    let unit := salt ++ pass
    let total := max (coded_count c) unit.length
    .ok (chains h (((List.replicate (total / unit.length + 1) unit).flatten).take total))

end Specifier

end S2K

/-- The member functions of the S2K class hierarchy that the SKESK packet calls,
over a carrier `σ` of S2K objects. -/
structure S2KOps (σ : Type) where
  /-- Result of `std::make_shared <S2K::S2Kn> ()`. -/
  make : S2K.Kind → σ
  /-- The call `s2k -> read(data, pos)`: the object and the offset afterwards. -/
  read : σ → ByteString → Nat → Run (σ × Nat)
  /-- The call `s2k -> write()`. -/
  write : σ → ByteString
  /-- The call `s2k -> valid()`. -/
  valid : σ → Status
  /-- The call `s2k -> run(pass, length)`. -/
  run : σ → ByteString → Nat → Except Exn ByteString
  /-- The call `s2k -> get_type()`. -/
  get_type : σ → Octet
  /-- The call `s2k -> clone()`. -/
  clone : σ → σ

/-- The namespace `Sym` and the CFB routines the SKESK packet calls. -/
structure SymOps where
  /-- The predicate `Sym::valid(sym)`. -/
  valid : Octet → Bool
  /-- The table `Sym::KEY_LENGTH`, in bits; `none` where `at` throws. -/
  KEY_LENGTH : Octet → Option Nat
  /-- The table `Sym::BLOCK_LENGTH`, in bits; `none` where `at` throws. -/
  BLOCK_LENGTH : Octet → Option Nat
  /-- The call `use_normal_CFB_encrypt(sym, data, key, iv)`. -/
  use_normal_CFB_encrypt : Octet → ByteString → ByteString → ByteString → Except Exn ByteString
  /-- The call `use_normal_CFB_decrypt(sym, data, key, iv)`. -/
  use_normal_CFB_decrypt : Octet → ByteString → ByteString → ByteString → Except Exn ByteString

/-- The spec-modelled S2K specifier as an instance of the S2K interface, over an
external hash primitive and its table of known ids. -/
def S2K.Specifier.ops (use_hash : Octet → ByteString → ByteString) (hash_known : Octet → Bool) :
    S2KOps S2K.Specifier :=
  { make := S2K.Specifier.make
    read := S2K.Specifier.read
    write := S2K.Specifier.write
    valid := S2K.Specifier.valid hash_known
    run := S2K.Specifier.run use_hash
    get_type := S2K.Specifier.get_type
    clone := fun s => s }

namespace Sample

/-- A stand-in for the external hash primitive, used to evaluate the packet code on
concrete inputs: a 4-octet digest made of the id, the length and the first two octets
of the message. -/
def use_hash (h : Octet) (m : ByteString) : ByteString :=
  [h, Fin.ofNat m.length, m.getD 0 0, m.getD 1 0]

/-- A stand-in for the external CFB encryption, used to evaluate the packet code on
concrete inputs: every octet is shifted by the first octets of key and IV. -/
def encrypt (_sym : Octet) (data key iv : ByteString) : Except Exn ByteString :=
  .ok (data.map (fun b => b + key.getD 0 0 + iv.getD 0 0))

/-- The inverse of `Sample.encrypt`. -/
def decrypt (_sym : Octet) (data key iv : ByteString) : Except Exn ByteString :=
  .ok (data.map (fun b => b - iv.getD 0 0 - key.getD 0 0))

/-- A stand-in for the namespace `Sym`: the three AES ids 7, 8, 9 with their key
lengths and the 128-bit block. -/
def sym : SymOps :=
  { valid := fun a => a.val = 7 || a.val = 8 || a.val = 9
    KEY_LENGTH := fun a =>
      if a.val = 7 then some 128 else if a.val = 8 then some 192
      else if a.val = 9 then some 256 else none
    BLOCK_LENGTH := fun a => if a.val = 7 || a.val = 8 || a.val = 9 then some 128 else none
    use_normal_CFB_encrypt := encrypt
    use_normal_CFB_decrypt := decrypt }

/-- The spec-modelled S2K over the stand-in hash. -/
def s2k : S2KOps S2K.Specifier :=
  S2K.Specifier.ops use_hash (fun h => h.val = 2 || h.val = 8)

end Sample

namespace Hash

namespace ID

/-- Modelled from the spec: the header with the hash ids is missing; SHA-1 is hash
algorithm 2 (RFC 4880 section 9.4). -/
def SHA1 : Octet := 2

end ID

/-- Modelled from the spec: the table `Hash::LENGTH` is missing; digest lengths in
bits of the hashes the spec lists (MD5, SHA-1, RIPEMD-160, SHA-256, SHA-384,
SHA-512, SHA-224), SHA-1 being 20 octets. -/
def LENGTH (h : Octet) : Option Nat :=
  if h.val = 1 then some 128
  else if h.val = 2 then some 160
  else if h.val = 3 then some 160
  else if h.val = 8 then some 256
  else if h.val = 9 then some 384
  else if h.val = 10 then some 512
  else if h.val = 11 then some 224
  else none

/-- The call `Hash::LENGTH.at(h)`: throws `std::out_of_range` for a missing key. -/
def LENGTH_at (h : Octet) : Except Exn Nat :=
  match LENGTH h with
  | some bits => .ok bits
  | none => .error .out_of_range

end Hash

namespace Packet

/-- Packet tag of the SKESK packet. -/
def SYMMETRIC_KEY_ENCRYPTED_SESSION_KEY : Nat := 3

/-- Packet tag of the MDC packet. -/
def MODIFICATION_DETECTION_CODE : Nat := 19

/-- A `Tag3` object: `tag` and `version` of the base class `Tag`, then the members
`sym`, `s2k` and `esk`; a null `shared_ptr` is `none`. -/
structure Tag3 (σ : Type) where
  tag : Nat
  version : Octet
  sym : Octet
  s2k : Option σ
  esk : Option ByteString

namespace Tag3

variable {σ : Type}

/-- The constructor `Tag3::Tag3()`. -/
def default : Tag3 σ :=
  { tag := SYMMETRIC_KEY_ENCRYPTED_SESSION_KEY, version := 4, sym := 0, s2k := none, esk := none }

/-- The setter `Tag::set_version`. -/
def set_version (self : Tag3 σ) (v : Octet) : Tag3 σ := { self with version := v }

/-- The setter `Tag3::set_sym`. -/
def set_sym (self : Tag3 σ) (s : Octet) : Tag3 σ := { self with sym := s }

/-- The getter `Tag3::get_sym`. -/
def get_sym (self : Tag3 σ) : Octet := self.sym

/-- The getter `Tag3::get_s2k`. -/
def get_s2k (self : Tag3 σ) : Option σ := self.s2k

/-- The getter `Tag3::get_esk`. -/
def get_esk (self : Tag3 σ) : Option ByteString := self.esk

/-- Lines 10 to 24 of `Tag3::actual_read`: the class instantiated for the S2K type
octet `t = data[pos + 2]`, or the exception thrown.  The message of the last branch
prints `data[0]`. -/
def s2k_for_type (data : ByteString) (t : Octet) : Except Exn S2K.Kind :=
  if t = S2K.ID.SIMPLE_S2K then .ok .S2K0
  else if t = S2K.ID.SALTED_S2K then .ok .S2K1
  else if t = 2 then .error (.runtime_error "S2K with ID 2 is reserved.")
  else if t = S2K.ID.ITERATED_AND_SALTED_S2K then .ok .S2K3
  else
    match string_at data 0 with
    | .error e => .error e
    | .ok c => .error (.runtime_error ("Unknown S2K ID encountered: " ++ to_string_char c))

/-- The member `Tag3::actual_read(data, pos, length)`.  The subtraction
`orig_pos + length - pos` is only evaluated under the guard `pos < orig_pos + length`,
where it cannot wrap around. -/
def actual_read (ops : S2KOps σ) (self : Tag3 σ) (data : ByteString) (pos length : Nat) :
    Run (Tag3 σ × Nat) :=
  match string_at data ((pos + 0) % SIZE_MOD) with
  | .error e => ⟨(self, pos), some e⟩
  | .ok v =>
    let self := self.set_version v
    match string_at data ((pos + 1) % SIZE_MOD) with
    | .error e => ⟨(self, pos), some e⟩
    | .ok a =>
      let self := self.set_sym a
      match string_at data ((pos + 2) % SIZE_MOD) with
      | .error e => ⟨(self, pos), some e⟩
      | .ok t =>
        match s2k_for_type data t with
        | .error e => ⟨(self, pos), some e⟩
        | .ok k =>
          let orig_pos := pos
          let r := ops.read (ops.make k) data ((pos + 2) % SIZE_MOD)
          let self := { self with s2k := some r.state.1 }
          let pos := r.state.2
          match r.thrown with
          | some e => ⟨(self, pos), some e⟩
          | none =>
            if pos < (orig_pos + length) % SIZE_MOD then
              match substr data pos ((orig_pos + length) % SIZE_MOD - pos) with
              | .error e => ⟨(self, pos), some e⟩
              | .ok s => ⟨({ self with esk := some s }, (orig_pos + length) % SIZE_MOD), none⟩
            else ⟨(self, (orig_pos + length) % SIZE_MOD), none⟩

/-- The member `Tag3::actual_raw()`. -/
def actual_raw (ops : S2KOps σ) (self : Tag3 σ) : ByteString :=
  [self.version] ++ [self.sym]
    ++ (match self.s2k with | some s => ops.write s | none => [])
    ++ (match self.esk with | some e => e | none => [])

/-- The member `Tag3::actual_valid(bool)`. -/
def actual_valid (ops : S2KOps σ) (sym : SymOps) (self : Tag3 σ) : Status :=
  if self.version ≠ 4 then Status.INVALID_VERSION
  else if !sym.valid self.sym then Status.INVALID_SYMMETRIC_ENCRYPTION_ALGORITHM
  else
    match self.s2k with
    | none => Status.MISSING_S2K
    | some s => ops.valid s

/-- The member `Tag3::get_session_key(pass)`. -/
def get_session_key (ops : S2KOps σ) (sym : SymOps) (self : Tag3 σ) (pass : ByteString) :
    Except Exn ByteString :=
  match self.s2k with
  | none => .error .null_dereference
  | some s =>
    match sym.KEY_LENGTH self.sym with
    | none => .error .out_of_range
    | some kl =>
      match ops.run s pass (kl >>> 3) with
      | .error e => .error e
      | .ok out =>
        match self.esk with
        | some e =>
          match sym.BLOCK_LENGTH self.sym with
          | none => .error .out_of_range
          | some bl => sym.use_normal_CFB_decrypt self.sym e out (List.replicate (bl >>> 3) 0)
        | none => .ok ([self.sym] ++ out)

/-- The member `Tag3::set_session_key(pass, sk)`. -/
def set_session_key (ops : S2KOps σ) (sym : SymOps) (self : Tag3 σ) (pass sk : ByteString) :
    Run (Tag3 σ) :=
  let self := { self with esk := none }
  match self.s2k with
  | none => ⟨self, none⟩
  | some s =>
    if 1 < sk.length then
      match sym.KEY_LENGTH self.sym with
      | none => ⟨self, some .out_of_range⟩
      | some kl =>
        match ops.run s pass (kl >>> 3) with
        | .error e => ⟨self, some e⟩
        | .ok key =>
          match sym.BLOCK_LENGTH self.sym with
          | none => ⟨self, some .out_of_range⟩
          | some bl =>
            match sym.use_normal_CFB_encrypt self.sym sk key (List.replicate (bl >>> 3) 0) with
            | .error e => ⟨self, some e⟩
            | .ok c => ⟨{ self with esk := some c }, none⟩
    else ⟨self, none⟩

/-- The getter `Tag3::get_s2k_clone`: a member call through `s2k`, null or not. -/
def get_s2k_clone (ops : S2KOps σ) (self : Tag3 σ) : Except Exn σ :=
  match self.s2k with
  | none => .error .null_dereference
  | some s => .ok (ops.clone s)

/-- The getter `Tag3::get_esk_clone`. -/
def get_esk_clone (self : Tag3 σ) : Option ByteString :=
  match self.esk with
  | some e => some e
  | none => none

/-- The setter `Tag3::set_s2k`; a null pointer argument is `none`. -/
def set_s2k (ops : S2KOps σ) (self : Tag3 σ) (s : Option σ) : Run (Tag3 σ) :=
  match s with
  | none => ⟨self, some (.runtime_error "Error: No S2K provided.\n")⟩
  | some s =>
    if ops.get_type s ≠ S2K.ID.SALTED_S2K ∧ ops.get_type s ≠ S2K.ID.ITERATED_AND_SALTED_S2K then
      ⟨self, some (.runtime_error "Error: S2K must have a salt value.")⟩
    else ⟨{ self with s2k := some (ops.clone s) }, none⟩

/-- The setter `Tag3::set_esk(const std::string &)`. -/
def set_esk (self : Tag3 σ) (s : ByteString) : Tag3 σ := { self with esk := some s }

/-- The setter `Tag3::set_esk(std::string *)`; a null pointer argument is `none`. -/
def set_esk_ptr (self : Tag3 σ) (s : Option ByteString) : Tag3 σ :=
  match s with
  | some s => self.set_esk s
  | none => self

/-- The copy constructor `Tag3::Tag3(const Tag3 &)`; `Tag(copy)` copies the members of
the base class. -/
def copy (ops : S2KOps σ) (copy : Tag3 σ) : Tag3 σ :=
  { tag := copy.tag
    version := copy.version
    sym := copy.sym
    s2k := match copy.s2k with
      | some s => some (ops.clone s)
      | none => none
    esk := copy.get_esk_clone }

/-- The member `Tag3::clone()`. -/
def clone (ops : S2KOps σ) (self : Tag3 σ) : Tag3 σ :=
  let out := Tag3.copy ops self
  let out := { out with sym := self.sym }
  let out := { out with s2k := match self.s2k with
    | some s => some (ops.clone s)
    | none => none }
  { out with esk := match self.esk with
    | some e => some e
    | none => none }

/-- The member `Tag3::operator=`: `Tag::operator=` copies the members of the base class;
`tag3.s2k -> clone()` and `*tag3.esk` go through the pointers, null or not. -/
def operator_assign (ops : S2KOps σ) (self tag3 : Tag3 σ) : Run (Tag3 σ) :=
  let self := { self with tag := tag3.tag, version := tag3.version }
  let self := { self with sym := tag3.sym }
  match tag3.s2k with
  | none => ⟨self, some .null_dereference⟩
  | some s =>
    let self := { self with s2k := some (ops.clone s) }
    match tag3.esk with
    | none => ⟨self, some .null_dereference⟩
    | some e => ⟨{ self with esk := some e }, none⟩

/-- The call `actual_read(data, pos, length)` fails because of the S2K type octet: the
octet at `pos + 2` selects a `throw` branch of lines 10 to 24, and that exception is
what the call ends with. -/
def rejects_type_octet (ops : S2KOps σ) (self : Tag3 σ) (data : ByteString)
    (pos length : Nat) : Prop :=
  ∃ t e, string_at data ((pos + 2) % SIZE_MOD) = .ok t ∧ s2k_for_type data t = .error e ∧
    (actual_read ops self data pos length).thrown = some e

end Tag3

/-- A `Tag19` object: `tag` and `size` of the base class `Tag`, then the member `hash`. -/
structure Tag19 where
  tag : Nat
  size : Nat
  hash : ByteString
  deriving DecidableEq, Repr

namespace Tag19

/-- The setter `Tag19::set_hash`. -/
def set_hash (self : Tag19) (h : ByteString) : Tag19 := { self with hash := h }

/-- The getter `Tag19::get_hash`. -/
def get_hash (self : Tag19) : ByteString := self.hash

/-- The member `Tag19::actual_read(data, pos, length)`. -/
def actual_read (self : Tag19) (data : ByteString) (pos length : Nat) : Run (Tag19 × Nat) :=
  match substr data pos length with
  | .error e => ⟨(self, pos), some e⟩
  | .ok h => ⟨(self.set_hash h, (pos + length) % SIZE_MOD), none⟩

/-- The member `Tag19::actual_raw()`. -/
def actual_raw (self : Tag19) : ByteString := self.hash

/-- The member `Tag19::actual_valid(bool)`. -/
def actual_valid (self : Tag19) : Except Exn Status :=
  match Hash.LENGTH_at Hash.ID.SHA1 with
  | .error e => .error e
  | .ok bits =>
    if self.hash.length ≠ bits >>> 3 then .ok Status.INVALID_SHA1_HASH
    else .ok Status.SUCCESS

/-- The member `Tag19::clone()`. -/
def clone (self : Tag19) : Tag19 := self

/-- The constructor `Tag19::Tag19()`. -/
def default : Except Exn Tag19 :=
  match Hash.LENGTH_at Hash.ID.SHA1 with
  | .error e => .error e
  | .ok bits => .ok { tag := MODIFICATION_DETECTION_CODE, size := bits >>> 3, hash := [] }

end Tag19

end Packet

/-! Key object: grammar, derived view and merge (spec sections 3 and 4.C4). -/

namespace Key

/-- Modelled from the spec: the packet classes are missing; a packet of a key is its tag
and its raw body, two packets being the same when both agree ("dedup by raw bytes"). -/
structure Pkt where
  tag : Nat
  raw : ByteString
  deriving DecidableEq, Repr

/-- Modelled from the spec: packet tag of a signature (section 3). -/
def SIGNATURE : Nat := 2

/-- Modelled from the spec: packet tag of a secret primary key. -/
def SECRET_KEY : Nat := 5

/-- Modelled from the spec: packet tag of a public primary key. -/
def PUBLIC_KEY : Nat := 6

/-- Modelled from the spec: packet tag of a secret subkey. -/
def SECRET_SUBKEY : Nat := 7

/-- Modelled from the spec: packet tag of a user ID. -/
def USER_ID : Nat := 13

/-- Modelled from the spec: packet tag of a public subkey. -/
def PUBLIC_SUBKEY : Nat := 14

/-- Modelled from the spec: packet tag of a user attribute. -/
def USER_ATTRIBUTE : Nat := 17

/-- Modelled from the spec: the terminal `Signature` of the key grammar. -/
def is_signature (p : Pkt) : Bool := p.tag == SIGNATURE

/-- Modelled from the spec: the terminal `Primary`, "the leading public-or-secret
primary-key packet". -/
def is_primary (p : Pkt) : Bool := p.tag == PUBLIC_KEY || p.tag == SECRET_KEY

/-- Modelled from the spec: the terminals `UserID` and `UserAttribute`. -/
def is_user (p : Pkt) : Bool := p.tag == USER_ID || p.tag == USER_ATTRIBUTE

/-- Modelled from the spec: the terminal `Subkey`. -/
def is_subkey (p : Pkt) : Bool := p.tag == PUBLIC_SUBKEY || p.tag == SECRET_SUBKEY

/-- Modelled from the spec: a block of the key grammar, a packet followed by the
signatures attached to it. -/
structure Block where
  owner : Pkt
  sigs : List Pkt
  deriving DecidableEq, Repr

/-- Modelled from the spec: the packets of a block in stream order. -/
def Block.packets (b : Block) : List Pkt := b.owner :: b.sigs

/-- Modelled from the spec: the (owner, signature) pairs of a block. -/
def Block.pairs (b : Block) : List (Pkt × Pkt) := b.sigs.map (fun s => (b.owner, s))

/-- Modelled from the spec: "signatures are associated with the most recent preceding
user-ID, user-attribute, subkey, or primary".  A packet list is split into its leading
signatures and the blocks headed by its other packets. -/
def group : List Pkt → List Pkt × List Block
  | [] => ([], [])
  | p :: rest =>
    if is_signature p then (p :: (group rest).1, (group rest).2)
    else ([], ⟨p, (group rest).1⟩ :: (group rest).2)

/-- Modelled from the spec: a key split along the grammar
`Key ::= Primary PrimaryCerts (UIDBlock | UATBlock)* SubkeyBlock*`. -/
structure Parsed where
  primary : Pkt
  certs : List Pkt
  users : List Block
  subkeys : List Block
  deriving DecidableEq, Repr

/-- Modelled from the spec: the recognizer of the key grammar.  `PrimaryCerts ::=
Signature*`, `UIDBlock ::= UserID Signature*`, `UATBlock ::= UserAttribute Signature*`,
`SubkeyBlock ::= Subkey Signature+`. -/
def parse : List Pkt → Option Parsed
  | [] => none
  | p :: rest =>
    let users := (group rest).2.takeWhile (fun b => is_user b.owner)
    let subkeys := (group rest).2.dropWhile (fun b => is_user b.owner)
    if is_primary p && subkeys.all (fun b => is_subkey b.owner && !b.sigs.isEmpty) then
      some ⟨p, (group rest).1, users, subkeys⟩
    else none

/-- Modelled from the spec: "A key is meaningful if parsing produces at least a primary
and the grammar holds". -/
def meaningful (ps : List Pkt) : Bool := (parse ps).isSome

/-- Modelled from the spec: the flat packet list of a key split along the grammar. -/
def Parsed.flatten (v : Parsed) : List Pkt :=
  v.primary :: (v.certs ++ (v.users ++ v.subkeys).flatMap Block.packets)

/-- Modelled from the spec: the derived view of a key; `keySigs` is the "multimap
primary → signature", `uids` the "multimap of (uid-or-uat packet → certification
signature)", `subKeys` the "multimap of (subkey packet → binding/revocation
signature)", each a list of pairs. -/
structure pkey where
  key : Pkt
  keySigs : List (Pkt × Pkt)
  uids : List (Pkt × Pkt)
  subKeys : List (Pkt × Pkt)
  deriving DecidableEq, Repr

/-- Modelled from the spec: the derived view of a key split along the grammar. -/
def Parsed.pkey (v : Parsed) : pkey :=
  { key := v.primary
    keySigs := v.certs.map (fun s => (v.primary, s))
    uids := v.users.flatMap Block.pairs
    subKeys := v.subkeys.flatMap Block.pairs }

/-- Modelled from the spec: the derived view of a packet list, when the grammar holds. -/
def get_pkey (ps : List Pkt) : Option pkey := (parse ps).map Parsed.pkey

/-- Modelled from the spec: union of signature lists with "dedup by raw bytes" and
"ordering preserved": a signature is appended unless it is already there. -/
def add_sig (sigs : List Pkt) (s : Pkt) : List Pkt := if s ∈ sigs then sigs else sigs ++ [s]

/-- Modelled from the spec: "the union of direct certifications (dedup by raw bytes)". -/
def union_sigs (xs ys : List Pkt) : List Pkt := ys.foldl add_sig xs

section blocks

variable {κ : Type} [DecidableEq κ] (ident : Pkt → κ)

/-- Modelled from the spec: some block is headed by a packet with the identity of `o`. -/
def has_owner (blocks : List Block) (o : Pkt) : Bool :=
  blocks.any (fun b => decide (ident b.owner = ident o))

/-- Modelled from the spec: the signature `s` is already attached to a packet with the
identity of `o`. -/
def has_pair (blocks : List Block) (o s : Pkt) : Bool :=
  blocks.any (fun b => decide (ident b.owner = ident o) && decide (s ∈ b.sigs))

/-- Modelled from the spec: "union certifications".  The signatures `news` are added to
the first block headed by a packet with the identity of `o`. -/
def extend_first (o : Pkt) (news : List Pkt) : List Block → List Block
  | [] => []
  | b :: rest =>
    if ident b.owner = ident o then ⟨b.owner, union_sigs b.sigs news⟩ :: rest
    else b :: extend_first o news rest

/-- Modelled from the spec: one block of the other side.  "For each UID/UAT present in
either, union certifications; for UIDs unique to one side, append the block after
existing UID/UAT blocks". -/
def add_block (blocks : List Block) (b : Block) : List Block :=
  if has_owner ident blocks b.owner then
    extend_first ident b.owner (b.sigs.filter (fun s => !has_pair ident blocks b.owner s)) blocks
  else blocks ++ [b]

/-- Modelled from the spec: the blocks of both sides, those of the second side taken
in "their original relative order". -/
def union_blocks (xs ys : List Block) : List Block := ys.foldl (add_block ident) xs

end blocks

/-- Modelled from the spec: the error kinds of section 7 that merging can end with. -/
inductive MergeError where
  | mismatched_merge
  | grammar_violation
  deriving DecidableEq, Repr

/-- Modelled from the spec: `Merge(A, B)` on keys split along the grammar.  "1. Keep
A.primary and the union of direct certifications.  2. For each UID/UAT present in
either, union certifications; UIDs unique to one side are appended.  3. For each
subkey identified by its fingerprint, union its signatures; subkeys unique to one side
are appended."  The fingerprint is the external function `fingerprint`. -/
def merge_parsed {κ : Type} [DecidableEq κ] (fingerprint : Pkt → κ) (a b : Parsed) : Parsed :=
  { primary := a.primary
    certs := union_sigs a.certs b.certs
    users := union_blocks (fun p => p) a.users b.users
    subkeys := union_blocks fingerprint a.subkeys b.subkeys }

/-- Modelled from the spec: `Merge(A, B)` on flat packet lists.  "Preconditions:
A.primary bit-identical to B.primary"; otherwise the error kind `mismatched-merge`,
and `grammar-violation` when a side is not meaningful. -/
def merge {κ : Type} [DecidableEq κ] (fingerprint : Pkt → κ) (A B : List Pkt) :
    Except MergeError (List Pkt) :=
  match parse A, parse B with
  | some a, some b =>
    if a.primary = b.primary then .ok (merge_parsed fingerprint a b).flatten
    else .error .mismatched_merge
  | _, _ => .error .grammar_violation

end Key

namespace Key

/-- The packets that occur in a derived view: the primary and both members of every
pair. -/
def pkey.packets (v : pkey) : List Pkt :=
  v.key :: (v.keySigs ++ v.uids ++ v.subKeys).flatMap (fun pr => [pr.1, pr.2])

end Key

namespace Key

/-- A second copy of the same key: a direct signature, another certification of the
user ID, a second user ID without certification, and another signature of the subkey. -/
def sample_right : List Pkt :=
  [⟨6, [1]⟩, ⟨2, [20]⟩, ⟨13, [97]⟩, ⟨2, [11]⟩, ⟨13, [98]⟩, ⟨14, [2]⟩, ⟨2, [31]⟩]

end Key

namespace KeyGen

/-- Modelled from the spec: the algorithm tables are "injected registries"; which PKA,
symmetric and hash ids are recognised and which PKA can sign. -/
structure Registry where
  pka_known : Octet → Bool
  can_sign : Octet → Bool
  sym_known : Octet → Bool
  hash_known : Octet → Bool

/-- Modelled from the spec: the tables of RFC 4880 section 9 for the algorithms the spec
lists.  PKA: RSA (1, 2, 3), ElGamal (16), DSA (17), ECDH (18), ECDSA (19), EdDSA (22), of
which RSA encrypt-or-sign, RSA sign-only, DSA, ECDSA and EdDSA sign; symmetric: IDEA,
3DES, CAST5, Blowfish, AES-128/192/256, Twofish, Camellia; hashes: MD5, SHA-1,
RIPEMD-160, SHA-256/384/512/224. -/
def rfc4880 : Registry :=
  { pka_known := fun a => decide (a.val ∈ [1, 2, 3, 16, 17, 18, 19, 22])
    can_sign := fun a => decide (a.val ∈ [1, 3, 17, 19, 22])
    sym_known := fun a => decide (a.val ∈ [1, 2, 3, 4, 7, 8, 9, 10, 11, 12, 13])
    hash_known := fun a => decide (a.val ∈ [1, 2, 3, 8, 9, 10, 11]) }

/-- Modelled from the spec: one subkey of `KeyGen.Config`, "each with its own
PKA/bits/sym/hash"; `sig` is the hash of its binding signature. -/
structure SubkeyGen where
  pka : Octet
  bits : Nat
  sym : Octet
  hash : Octet
  sig : Octet

/-- Modelled from the spec: "`KeyGen.Config`: primary-key PKA, bit size, preferred sym,
preferred hash, list of UIDs, list of subkeys, S2K passphrase". -/
structure Config where
  passphrase : ByteString
  pka : Octet
  bits : Nat
  sym : Octet
  hash : Octet
  uids : List ByteString
  subkeys : List SubkeyGen

/-- Modelled from the spec: "`valid()` on the config checks: at least one UID; PKA ids are
recognized and, for the primary, can sign; sym and hash ids are recognized; every
subkey's fields likewise valid". -/
def Config.valid (reg : Registry) (c : Config) : Bool :=
  !c.uids.isEmpty && reg.pka_known c.pka && reg.can_sign c.pka && reg.sym_known c.sym &&
    reg.hash_known c.hash &&
    c.subkeys.all (fun k =>
      reg.pka_known k.pka && reg.sym_known k.sym && reg.hash_known k.hash && reg.hash_known k.sig)

end KeyGen

/-- Modelled from the spec: `makehex`, `hexlify` and `unhexlify` of `common/includes` are
missing and the spec has no text on them; they are modelled on what their tests check.
One hex digit of `makehex`: lowercase, as `std::hex` prints it, or capitals. -/
def hex_digit (caps : Bool) (d : Nat) : Octet :=
  if d < 10 then Fin.ofNat (48 + d)
  else if caps then Fin.ofNat (55 + d)
  else Fin.ofNat (87 + d)

/-- Modelled from the spec: `hexlify(in, caps)`; every octet becomes its two hex digits,
as `makehex(i, 2)` gives them, the high one first. -/
def hexlify (s : ByteString) (caps : Bool) : ByteString :=
  s.flatMap (fun b => [hex_digit caps (b.val / 16), hex_digit caps (b.val % 16)])

/-- Modelled from the spec: the value of a hex digit, `none` for every other character. -/
def hex_value (c : Octet) : Option Nat :=
  if 48 ≤ c.val ∧ c.val ≤ 57 then some (c.val - 48)
  else if 97 ≤ c.val ∧ c.val ≤ 102 then some (c.val - 87)
  else if 65 ≤ c.val ∧ c.val ≤ 70 then some (c.val - 55)
  else none

/-- Modelled from the spec: the digit pairs of `unhexlify`; a `std::runtime_error` at the
first character that is not a hex digit. -/
def unhexlify_pairs : ByteString → Except Exn ByteString
  | h :: l :: rest =>
    match hex_value h, hex_value l with
    | some a, some b =>
      match unhexlify_pairs rest with
      | .ok out => .ok (Fin.ofNat (a * 16 + b) :: out)
      | .error e => .error e
    | _, _ => .error (.runtime_error "Error: Invalid character found.")
  | _ => .ok []

/-- Modelled from the spec: `unhexlify(in)`; a `std::runtime_error` for an input of odd
length, otherwise one octet for every pair of hex digits. -/
def unhexlify (s : ByteString) : Except Exn ByteString :=
  if s.length % 2 = 1 then .error (.runtime_error "Error: input string of odd length.")
  else unhexlify_pairs s

namespace Framing

/-- Modelled from the spec: the packet framing code is missing.  The length octets of a
non-partial body in the new format, "the shortest compatible length": one octet below
192, two octets for 192..8383, else 255 and four big-endian octets. -/
def write_length (n : Nat) : ByteString :=
  if n < 192 then [Fin.ofNat n]
  else if n < 8384 then [Fin.ofNat ((n - 192) / 256 + 192), Fin.ofNat ((n - 192) % 256)]
  else [255, Fin.ofNat (n / 16777216), Fin.ofNat (n / 65536), Fin.ofNat (n / 256), Fin.ofNat n]

/-- Modelled from the spec: one length header of the new format.  "first octet < 192:
1-octet length; 192 <= first < 224: 2-octet length = (first-192)<<8 + second + 192;
first == 255: 4-octet big-endian length follows; 224 <= first < 255: partial body
length = 1 << (first & 0x1F)".  The result is the length, whether it is partial, and
the data after the header. -/
def read_length : ByteString → Option (Nat × Bool × ByteString)
  | [] => none
  | f :: rest =>
    if f.val < 192 then some (f.val, false, rest)
    else if f.val < 224 then
      match rest with
      | s :: rest => some ((f.val - 192) * 256 + s.val + 192, false, rest)
      | [] => none
    else if f.val = 255 then
      match rest with
      | a :: b :: c :: d :: rest =>
        some (a.val * 16777216 + b.val * 65536 + c.val * 256 + d.val, false, rest)
      | _ => none
    else some (2 ^ (f.val % 32), true, rest)

/-- Modelled from the spec: the body of a packet written with partial-body-length
chunks.  The spec leaves the chunk sizes to the encoder: `policy n` is the exponent of
the next partial chunk when `n` octets remain, or `none` for the final chunk, which
"must use a non-partial length".  The first argument bounds the number of chunks. -/
def write_chunks (policy : Nat → Option Nat) : Nat → ByteString → ByteString
  | 0, body => write_length body.length ++ body
  | fuel + 1, body =>
    match policy body.length with
    | some e =>
      Fin.ofNat (224 + e) :: (body.take (2 ^ e) ++ write_chunks policy fuel (body.drop (2 ^ e)))
    | none => write_length body.length ++ body

/-- Modelled from the spec: the body of a packet read from its length headers,
"transparently reassembling partial-body chunks".  The result is the body, whether a
partial header was met, and the data after the packet; `none` when the data ends
early.  The first argument bounds the number of chunks. -/
def read_chunks : Nat → ByteString → Option (ByteString × Bool × ByteString)
  | 0, _ => none
  | fuel + 1, data =>
    match read_length data with
    | none => none
    | some (n, chunked, rest) =>
      if rest.length < n then none
      else if chunked then
        match read_chunks fuel (rest.drop n) with
        | some (more, _, after) => some (rest.take n ++ more, true, after)
        | none => none
      else some (rest.take n, false, rest.drop n)

/-- Modelled from the spec: what the decoder surfaces for one packet, "{tag, format,
totalBodyBytes (reassembled), partialFlag}", here for the new format. -/
structure Framed where
  tag : Nat
  partial_body : Bool
  body : ByteString
  deriving DecidableEq, Repr

/-- Modelled from the spec: packet tag of a literal data packet. -/
def LITERAL_DATA : Nat := 11

/-- Modelled from the spec: "Partial chunks are only legal for literal, compressed, and
the encrypted-body packet types" (tags 8, 9, 11 and 18). -/
def partial_allowed (tag : Nat) : Bool := tag == 8 || tag == 9 || tag == 11 || tag == 18

/-- Modelled from the spec: one packet in the new format, "first octet 11xxxxxx where
xxxxxx = tag"; "header with tag == 0 is fatal".  The old format is not modelled and
is refused. -/
def read_packet : ByteString → Option (Framed × ByteString)
  | [] => none
  | h :: rest =>
    if h.val < 192 then none
    else if h.val % 64 = 0 then none
    else
      match read_chunks (rest.length + 1) rest with
      | none => none
      | some (body, chunked, after) =>
        if chunked && !partial_allowed (h.val % 64) then none
        else some (⟨h.val % 64, chunked, body⟩, after)

/-- Modelled from the spec: one packet written in the new format, with partial-body
chunks when it is marked partial. -/
def write_packet (policy : Nat → Option Nat) (p : Framed) : ByteString :=
  Fin.ofNat (192 + p.tag) ::
    (if p.partial_body then write_chunks policy p.body.length p.body
     else write_length p.body.length ++ p.body)

/-- Modelled from the spec: a literal data packet, "format (binary/text/utf-8), filename,
timestamp, data", with its partial-body flag. -/
structure Tag11 where
  partial_body : Bool
  format : Octet
  filename : ByteString
  time : Nat
  literal : ByteString
  deriving DecidableEq, Repr

/-- Modelled from the spec: "Literal body: format byte, filename-length (1 octet) +
filename, 4-byte timestamp, payload". -/
def Tag11.raw (p : Tag11) : ByteString :=
  [p.format, Fin.ofNat p.filename.length] ++ p.filename ++
    [Fin.ofNat (p.time / 16777216), Fin.ofNat (p.time / 65536), Fin.ofNat (p.time / 256),
      Fin.ofNat p.time] ++ p.literal

/-- Modelled from the spec: the literal body decoder; `none` when the body ends before the
timestamp does. -/
def Tag11.read_body (chunked : Bool) : ByteString → Option Tag11
  | format :: n :: rest =>
    match rest.drop n.val with
    | a :: b :: c :: d :: literal =>
      if rest.length < n.val then none
      else some
        { partial_body := chunked
          format := format
          filename := rest.take n.val
          time := a.val * 16777216 + b.val * 65536 + c.val * 256 + d.val
          literal := literal }
    | _ => none
  | _ => none

/-- Modelled from the spec: the literal data packet as a packet of the stream. -/
def Tag11.write (policy : Nat → Option Nat) (p : Tag11) : ByteString :=
  write_packet policy ⟨LITERAL_DATA, p.partial_body, p.raw⟩

/-- Modelled from the spec: a literal data packet read from the stream, and the data
after it. -/
def Tag11.read (data : ByteString) : Option (Tag11 × ByteString) :=
  match read_packet data with
  | some (f, after) =>
    if f.tag = LITERAL_DATA then
      match Tag11.read_body f.partial_body f.body with
      | some p => some (p, after)
      | none => none
    else none
  | none => none

end Framing

namespace Framing

/-- A chunk policy to evaluate the framing on concrete inputs: partial chunks of 512
octets while at least 512 octets remain. -/
def chunks_of_512 (n : Nat) : Option Nat := if 512 ≤ n then some 9 else none

end Framing

/-- Modelled from the spec: `makebin`, `toint` and `little_end` of `common/includes` are
missing and the spec has no text on them; they are modelled on what their tests check.
`makebin(value, size)`: the `size` low bits of `value` as the characters `0` and `1`,
the most significant first. -/
def makebin (value size : Nat) : ByteString :=
  (List.range size).reverse.map (fun k => if value / 2 ^ k % 2 = 1 then (49 : Octet) else 48)

/-- Modelled from the spec: the digits `std::stringstream` prints for `n` in base 8, 10 or
16, as the tests of `toint` build their input: no leading zeros, lowercase letters. -/
def numeral_digits (base : Nat) : Nat → Nat → ByteString → ByteString
  | 0, _, acc => acc
  | fuel + 1, n, acc =>
    if n < base then hex_digit false n :: acc
    else numeral_digits base fuel (n / base) (hex_digit false (n % base) :: acc)

/-- Modelled from the spec: the numeral of a 64-bit value in base 8, 10 or 16, as the tests
of `toint` print it. -/
def numeral (base n : Nat) : ByteString := numeral_digits base 64 n []

/-- Modelled from the spec: the number of values of `uint64_t`, the result type of
`toint`. -/
def UINT64_MOD : Nat := 18446744073709551616

/-- Modelled from the spec: the value of a digit of the textual bases of `toint`, `none`
for a character that is no digit of the base. -/
def digit_value (base : Nat) (c : Octet) : Option Nat :=
  match hex_value c with
  | some d => if d < base then some d else none
  | none => none

/-- Modelled from the spec: `toint` in a textual base; digits are accumulated in a
`uint64_t` up to the first character that is no digit, so that `toint("~", base)` is 0
as the test `toint, bad` asks. -/
def toint_text (base : Nat) : ByteString → Nat → Nat
  | [], value => value
  | c :: rest, value =>
    match digit_value base c with
    | some d => toint_text base rest ((value * base + d) % UINT64_MOD)
    | none => value

/-- Modelled from the spec: `toint(s, base)`; bases 2, 8, 10 and 16 are textual, base 256
takes every octet as a digit, every other base is a `std::runtime_error`. -/
def toint (s : ByteString) (base : Nat) : Except Exn Nat :=
  if base = 2 ∨ base = 8 ∨ base = 10 ∨ base = 16 then .ok (toint_text base s 0)
  else if base = 256 then .ok (s.foldl (fun value c => (value * 256 + c.val) % UINT64_MOD) 0)
  else .error (.runtime_error "Error: toint() undefined for this base.")

/-- Modelled from the spec: the big-endian value of a byte string, in the words of the
specification; the first octet is the most significant. -/
def big_endian_value : ByteString → Nat
  | [] => 0
  | c :: rest => c.val * 256 ^ rest.length + big_endian_value rest

/-- Modelled from the spec: the loop of `little_end`; groups of `k` characters are taken
from the front of the input and put in front of the output.  The first argument bounds
the number of groups. -/
def little_end_loop (k : Nat) : Nat → ByteString → ByteString → ByteString
  | 0, _, out => out
  | fuel + 1, rest, out =>
    if rest = [] then out else little_end_loop k fuel (rest.drop k) (rest.take k ++ out)

/-- Modelled from the spec: `little_end(str, base)`; a byte is 8 characters in base 2, 2
characters in base 16 and 1 character in base 256, every other base is a
`std::runtime_error`. -/
def little_end (str : ByteString) (base : Nat) : Except Exn ByteString :=
  if base = 2 then .ok (little_end_loop 8 str.length str [])
  else if base = 16 then .ok (little_end_loop 2 str.length str [])
  else if base = 256 then .ok (little_end_loop 1 str.length str [])
  else .error (.runtime_error "Error: little_end() undefined for this base.")

end OpenPGP

namespace OpenPGP

/-! ## Strings -/

theorem string_at_of_getElem? {data : ByteString} {i : Nat} {v : Octet}
    (h : data[i]? = some v) : string_at data i = .ok v := by
  obtain ⟨hi, hv⟩ := List.getElem?_eq_some.mp h
  simp [string_at, hi, hv]

theorem substr_of_le {data : ByteString} {pos : Nat} (n : Nat) (h : pos ≤ data.length) :
    substr data pos n = .ok ((data.drop pos).take n) := by
  simp [substr, Nat.not_lt.mpr h]

namespace Packet

/-! ## Tag19 -/

/-- Claim C4: `Tag19::actual_valid` returns `SUCCESS` exactly when the stored hash is 20
octets long and `INVALID_SHA1_HASH` for every other length, the empty hash included. -/
theorem Tag19.actual_valid_iff_twenty (t : Tag19) :
    (t.actual_valid = .ok Status.SUCCESS ↔ t.hash.length = 20) ∧
    (t.hash.length ≠ 20 → t.actual_valid = .ok Status.INVALID_SHA1_HASH) ∧
    ({ t with hash := [] } : Tag19).actual_valid = .ok Status.INVALID_SHA1_HASH := by
  have h160 : Hash.LENGTH_at Hash.ID.SHA1 = .ok 160 := rfl
  have h20 : (160 : Nat) >>> 3 = 20 := by decide
  refine ⟨?_, ?_, ?_⟩
  · by_cases h : t.hash.length = 20 <;> simp [Tag19.actual_valid, h160, h20, h]
  · intro h
    simp [Tag19.actual_valid, h160, h20, h]
  · simp [Tag19.actual_valid, h160, h20]

/-- Claim C5: for `pos + length <= |data|`, `Tag19::actual_read` does not throw and
`actual_raw` and `get_hash` afterwards both return exactly the octets
`data[pos, pos + length)`, whatever they are. -/
theorem Tag19.mdc_read_then_raw (self : Tag19) (data : ByteString) (pos length : Nat)
    (h : pos + length ≤ data.length) :
    (self.actual_read data pos length).thrown = none ∧
    (self.actual_read data pos length).state.1.actual_raw = (data.drop pos).take length ∧
    (self.actual_read data pos length).state.1.get_hash = (data.drop pos).take length ∧
    ((self.actual_read data pos length).state.1.actual_raw).length = length ∧
    ∀ i, i < length →
      ((self.actual_read data pos length).state.1.actual_raw)[i]? = data[pos + i]? := by
  have hpos : pos ≤ data.length := by omega
  have hr : self.actual_read data pos length
      = ⟨(self.set_hash ((data.drop pos).take length), (pos + length) % SIZE_MOD), none⟩ := by
    simp [Tag19.actual_read, substr_of_le length hpos]
  rw [hr]
  refine ⟨rfl, rfl, rfl, ?_, ?_⟩
  · simp [Tag19.actual_raw, Tag19.set_hash]
    omega
  · intro i hi
    simp [Tag19.actual_raw, Tag19.set_hash, List.getElem?_take, hi]

/-- Witness for C5: the three octets at offset 1 of a five-octet string. -/
theorem Tag19.mdc_read_then_raw_witness :
    1 + 3 ≤ ([9, 200, 0, 255, 7] : ByteString).length ∧
    ((⟨19, 20, []⟩ : Tag19).actual_read [9, 200, 0, 255, 7] 1 3).state.1.actual_raw
      = [200, 0, 255] :=
  ⟨by decide, (Tag19.mdc_read_then_raw ⟨19, 20, []⟩ [9, 200, 0, 255, 7] 1 3 (by decide)).2.1⟩

/-! ## Tag3 -/

namespace Tag3

variable {σ : Type}

theorem s2k_for_type_simple (data : ByteString) :
    s2k_for_type data S2K.ID.SIMPLE_S2K = .ok .S2K0 := rfl

theorem s2k_for_type_salted (data : ByteString) :
    s2k_for_type data S2K.ID.SALTED_S2K = .ok .S2K1 := rfl

theorem s2k_for_type_iterated (data : ByteString) :
    s2k_for_type data S2K.ID.ITERATED_AND_SALTED_S2K = .ok .S2K3 := rfl

/-- The reader up to the call of the S2K reader: with the three leading octets in the
data and a type octet that selects a class, the outcome is decided by what the S2K
reader returns and by the comparison of its offset with `pos + length`. -/
theorem actual_read_of_read (ops : S2KOps σ) (self : Tag3 σ) (data : ByteString)
    (pos length : Nat) (v a t : Octet) (k : S2K.Kind) (r : Run (σ × Nat))
    (hM : data.length < SIZE_MOD)
    (hv : data[pos]? = some v) (ha : data[pos + 1]? = some a) (ht : data[pos + 2]? = some t)
    (hk : s2k_for_type data t = .ok k)
    (hread : ops.read (ops.make k) data (pos + 2) = r) :
    actual_read ops self data pos length =
      match r.thrown with
      | some e =>
        ⟨({ tag := self.tag, version := v, sym := a, s2k := some r.state.1, esk := self.esk },
          r.state.2), some e⟩
      | none =>
        if r.state.2 < (pos + length) % SIZE_MOD then
          match substr data r.state.2 ((pos + length) % SIZE_MOD - r.state.2) with
          | .error e =>
            ⟨({ tag := self.tag, version := v, sym := a, s2k := some r.state.1, esk := self.esk },
              r.state.2), some e⟩
          | .ok e =>
            ⟨({ tag := self.tag, version := v, sym := a, s2k := some r.state.1, esk := some e },
              (pos + length) % SIZE_MOD), none⟩
        else
          ⟨({ tag := self.tag, version := v, sym := a, s2k := some r.state.1, esk := self.esk },
            (pos + length) % SIZE_MOD), none⟩ := by
  have h2 : pos + 2 < data.length := (List.getElem?_eq_some.mp ht).1
  have e0 : (pos + 0) % SIZE_MOD = pos := Nat.mod_eq_of_lt (by omega)
  have e1 : (pos + 1) % SIZE_MOD = pos + 1 := Nat.mod_eq_of_lt (by omega)
  have e2 : (pos + 2) % SIZE_MOD = pos + 2 := Nat.mod_eq_of_lt (by omega)
  subst hread
  unfold actual_read
  rw [e0, e1, e2, string_at_of_getElem? hv]
  simp only [string_at_of_getElem? ha, string_at_of_getElem? ht, hk]
  rfl

/-- The reader when the type octet selects a `throw` branch: version and sym-id are
already assigned, the S2K, the encrypted session key and the offset are untouched. -/
theorem actual_read_of_type_error (ops : S2KOps σ) (self : Tag3 σ) (data : ByteString)
    (pos length : Nat) (v a t : Octet) (e : Exn)
    (hM : data.length < SIZE_MOD)
    (hv : data[pos]? = some v) (ha : data[pos + 1]? = some a) (ht : data[pos + 2]? = some t)
    (hk : s2k_for_type data t = .error e) :
    actual_read ops self data pos length =
      ⟨({ tag := self.tag, version := v, sym := a, s2k := self.s2k, esk := self.esk }, pos),
        some e⟩ := by
  have h2 : pos + 2 < data.length := (List.getElem?_eq_some.mp ht).1
  have e0 : (pos + 0) % SIZE_MOD = pos := Nat.mod_eq_of_lt (by omega)
  have e1 : (pos + 1) % SIZE_MOD = pos + 1 := Nat.mod_eq_of_lt (by omega)
  have e2 : (pos + 2) % SIZE_MOD = pos + 2 := Nat.mod_eq_of_lt (by omega)
  unfold actual_read
  rw [e0, e1, e2, string_at_of_getElem? hv]
  simp only [string_at_of_getElem? ha, string_at_of_getElem? ht, hk]
  rfl

/-- Every type octet other than 0, 1 and 3 selects a `throw` branch. -/
theorem s2k_for_type_error (data : ByteString) (t : Octet)
    (h : ¬(t = 0 ∨ t = 1 ∨ t = 3)) :
    ∃ msg, s2k_for_type data t = .error (.runtime_error msg) := by
  have h0 : t ≠ S2K.ID.SIMPLE_S2K := fun h0 => h (Or.inl h0)
  have h1 : t ≠ S2K.ID.SALTED_S2K := fun h1 => h (Or.inr (Or.inl h1))
  have h3 : t ≠ S2K.ID.ITERATED_AND_SALTED_S2K := fun h3 => h (Or.inr (Or.inr h3))
  unfold s2k_for_type
  rw [if_neg h0, if_neg h1]
  by_cases h2 : t = 2
  · rw [if_pos h2]
    exact ⟨_, rfl⟩
  · rw [if_neg h2, if_neg h3]
    obtain ⟨c, hc⟩ : ∃ c, string_at data 0 = .ok c := by
      cases data <;> simp [string_at]
    rw [hc]
    exact ⟨_, rfl⟩

/-- The reader on a body that lies within the data, when the S2K reader succeeds: no
exception, the offset is `pos + length`, and a new encrypted session key is stored
only when the specifier ends before `pos + length`. -/
theorem actual_read_within (ops : S2KOps σ) (self : Tag3 σ) (data : ByteString)
    (pos length : Nat) (v a t : Octet) (k : S2K.Kind) (s : σ) (p : Nat)
    (hM : data.length < SIZE_MOD)
    (hbody : pos + length ≤ data.length)
    (hv : data[pos]? = some v) (ha : data[pos + 1]? = some a) (ht : data[pos + 2]? = some t)
    (hk : s2k_for_type data t = .ok k)
    (hread : ops.read (ops.make k) data (pos + 2) = ⟨(s, p), none⟩) :
    actual_read ops self data pos length =
      ⟨({ tag := self.tag, version := v, sym := a, s2k := some s,
          esk := if p < pos + length then some ((data.drop p).take (pos + length - p))
            else self.esk },
        pos + length), none⟩ := by
  have hmod : (pos + length) % SIZE_MOD = pos + length := Nat.mod_eq_of_lt (by omega)
  rw [actual_read_of_read ops self data pos length v a t k _ hM hv ha ht hk hread, hmod]
  by_cases hlt : p < pos + length
  · have hsub : substr data p (pos + length - p)
        = .ok ((data.drop p).take (pos + length - p)) := substr_of_le _ (by omega)
    simp only [hlt, if_true, hsub]
  · simp only [hlt, if_false]

/-- The type octets 0, 1 and 3 select a class. -/
theorem s2k_for_type_ok (data : ByteString) (t : Octet) (h : t = 0 ∨ t = 1 ∨ t = 3) :
    ∃ k, s2k_for_type data t = .ok k := by
  rcases h with rfl | rfl | rfl
  · exact ⟨_, rfl⟩
  · exact ⟨_, rfl⟩
  · exact ⟨_, rfl⟩

end Tag3

/-- Claim C3: `Tag3::actual_valid` returns `SUCCESS` exactly when the version is 4, the
sym-id is recognised, an S2K is present and that S2K is valid; otherwise it returns
the status of the first failing check, in the order `INVALID_VERSION`,
`INVALID_SYMMETRIC_ENCRYPTION_ALGORITHM`, `MISSING_S2K`, the S2K's own status. -/
theorem Tag3.actual_valid_first_failing_check {σ : Type} (ops : S2KOps σ) (sym : SymOps)
    (self : Tag3 σ) :
    (self.actual_valid ops sym = Status.SUCCESS ↔
      self.version = 4 ∧ sym.valid self.sym = true ∧
        ∃ s, self.s2k = some s ∧ ops.valid s = Status.SUCCESS) ∧
    (self.version ≠ 4 → self.actual_valid ops sym = Status.INVALID_VERSION) ∧
    (self.version = 4 → sym.valid self.sym = false →
      self.actual_valid ops sym = Status.INVALID_SYMMETRIC_ENCRYPTION_ALGORITHM) ∧
    (self.version = 4 → sym.valid self.sym = true → self.s2k = none →
      self.actual_valid ops sym = Status.MISSING_S2K) ∧
    (self.version = 4 → sym.valid self.sym = true → ∀ s, self.s2k = some s →
      self.actual_valid ops sym = ops.valid s) := by
  refine ⟨?_, ?_, ?_, ?_, ?_⟩
  · unfold Tag3.actual_valid
    by_cases hv : self.version = 4
    · cases hs : sym.valid self.sym
      · simp [hv]
      · cases h2 : self.s2k <;> simp [hv]
    · simp [hv]
  · intro hv
    simp [Tag3.actual_valid, hv]
  · intro hv hs
    simp [Tag3.actual_valid, hv, hs]
  · intro hv hs h2
    simp [Tag3.actual_valid, hv, hs, h2]
  · intro hv hs s h2
    simp [Tag3.actual_valid, hv, hs, h2]

/-- Claim C6: on a packet with an S2K, a sym-id with a key length and no encrypted
session key, `get_session_key(pass)` is the sym-id octet followed by the output of
`S2K.run(pass, KEY_LENGTH(sym) / 8)`, and fails exactly as that call fails. -/
theorem Tag3.get_session_key_without_esk {σ : Type} (ops : S2KOps σ) (sym : SymOps)
    (self : Tag3 σ) (s : σ) (kl : Nat) (pass : ByteString)
    (hs2k : self.s2k = some s)
    (hkl : sym.KEY_LENGTH self.sym = some kl)
    (hesk : self.esk = none) :
    (∀ out, ops.run s pass (kl / 8) = .ok out →
      Tag3.get_session_key ops sym self pass = .ok (self.get_sym :: out)) ∧
    (∀ e, ops.run s pass (kl / 8) = .error e →
      Tag3.get_session_key ops sym self pass = .error e) := by
  have hshift : kl >>> 3 = kl / 8 := by
    rw [Nat.shiftRight_eq_div_pow]
  constructor
  · intro out hrun
    simp [Tag3.get_session_key, hs2k, hkl, hesk, hshift, hrun, Tag3.get_sym]
  · intro e hrun
    simp [Tag3.get_session_key, hs2k, hkl, hshift, hrun]

/-- Witness for C6: AES-128 (sym-id 7) and a salted specifier give the sym-id and the
16 octets of the S2K output. -/
theorem Tag3.get_session_key_without_esk_witness :
    Tag3.get_session_key Sample.s2k Sample.sym
        { tag := 3, version := 4, sym := 7,
          s2k := some (.salted 2 [1, 2, 3, 4, 5, 6, 7, 8]), esk := none } [112]
      = .ok [7, 2, 9, 1, 2, 2, 10, 0, 1, 2, 11, 0, 0, 2, 12, 0, 0] :=
  (Tag3.get_session_key_without_esk Sample.s2k Sample.sym
    { tag := 3, version := 4, sym := 7,
      s2k := some (.salted 2 [1, 2, 3, 4, 5, 6, 7, 8]), esk := none }
    (.salted 2 [1, 2, 3, 4, 5, 6, 7, 8]) 128 [112] rfl rfl rfl).1
    [2, 9, 1, 2, 2, 10, 0, 1, 2, 11, 0, 0, 2, 12, 0, 0] rfl

/-- Claim C7: on a packet with an S2K and a sym-id that has key and block lengths, for
a session-key string `sk` of more than one octet, `set_session_key(pass, sk)` does
not throw and `get_session_key(pass)` afterwards returns exactly `sk`, given that CFB
decryption inverts CFB encryption of `sk` under the S2K-derived key of
`KEY_LENGTH(sym) / 8` octets and the all-zero IV of `BLOCK_LENGTH(sym) / 8` octets. -/
theorem Tag3.set_get_session_key {σ : Type} (ops : S2KOps σ) (sym : SymOps)
    (self : Tag3 σ) (s : σ) (kl bl : Nat) (pass sk key : ByteString)
    (hs2k : self.s2k = some s)
    (hkl : sym.KEY_LENGTH self.sym = some kl)
    (hbl : sym.BLOCK_LENGTH self.sym = some bl)
    (hsk : 1 < sk.length)
    (hrun : ops.run s pass (kl / 8) = .ok key)
    (hcfb : ∃ c, sym.use_normal_CFB_encrypt self.sym sk key (List.replicate (bl / 8) 0) = .ok c ∧
      sym.use_normal_CFB_decrypt self.sym c key (List.replicate (bl / 8) 0) = .ok sk) :
    (Tag3.set_session_key ops sym self pass sk).thrown = none ∧
    Tag3.get_session_key ops sym (Tag3.set_session_key ops sym self pass sk).state pass
      = .ok sk := by
  obtain ⟨c, henc, hdec⟩ := hcfb
  have hk : kl >>> 3 = kl / 8 := by rw [Nat.shiftRight_eq_div_pow]
  have hb : bl >>> 3 = bl / 8 := by rw [Nat.shiftRight_eq_div_pow]
  have hset : Tag3.set_session_key ops sym self pass sk
      = ⟨{ self with esk := some c }, none⟩ := by
    simp [Tag3.set_session_key, hs2k, hkl, hbl, hsk, hk, hb, hrun, henc]
  rw [hset]
  refine ⟨rfl, ?_⟩
  simp [Tag3.get_session_key, hs2k, hkl, hbl, hk, hb, hrun, hdec]

/-- Witness for C7: a three-octet session-key string under AES-128 and a salted
specifier. -/
theorem Tag3.set_get_session_key_witness :
    Tag3.get_session_key Sample.s2k Sample.sym
        (Tag3.set_session_key Sample.s2k Sample.sym
          { tag := 3, version := 4, sym := 7,
            s2k := some (.salted 2 [1, 2, 3, 4, 5, 6, 7, 8]), esk := none }
          [112] [9, 250, 3]).state [112]
      = .ok [9, 250, 3] :=
  (Tag3.set_get_session_key Sample.s2k Sample.sym
    { tag := 3, version := 4, sym := 7,
      s2k := some (.salted 2 [1, 2, 3, 4, 5, 6, 7, 8]), esk := none }
    (.salted 2 [1, 2, 3, 4, 5, 6, 7, 8]) 128 128 [112] [9, 250, 3]
    [2, 9, 1, 2, 2, 10, 0, 1, 2, 11, 0, 0, 2, 12, 0, 0]
    rfl rfl rfl (by decide) rfl ⟨[11, 252, 5], rfl, rfl⟩).2

/-- Claim C8: for a body with at least three octets, `Tag3::actual_read` fails because
of the S2K type octet exactly when that octet is none of 0, 1 and 3; the reserved
type 2 and every type above 3 are rejected with a `std::runtime_error`. -/
theorem Tag3.actual_read_rejects_type_octet {σ : Type} (ops : S2KOps σ) (self : Tag3 σ)
    (data : ByteString) (pos length : Nat) (t : Octet)
    (hsize : data.length < SIZE_MOD)
    (ht : data[pos + 2]? = some t) :
    (Tag3.rejects_type_octet ops self data pos length ↔ ¬(t = 0 ∨ t = 1 ∨ t = 3)) ∧
    (t = 2 → (Tag3.actual_read ops self data pos length).thrown
      = some (.runtime_error "S2K with ID 2 is reserved.")) ∧
    (3 < t.val → ∃ msg, (Tag3.actual_read ops self data pos length).thrown
      = some (.runtime_error msg)) := by
  have h2 : pos + 2 < data.length := (List.getElem?_eq_some.mp ht).1
  have hv : data[pos]? = some (data[pos]) := List.getElem?_eq_getElem (by omega)
  have ha : data[pos + 1]? = some (data[pos + 1]) := List.getElem?_eq_getElem (by omega)
  have e2 : (pos + 2) % SIZE_MOD = pos + 2 := Nat.mod_eq_of_lt (by omega)
  have hthrown : ∀ e, Tag3.s2k_for_type data t = .error e →
      (Tag3.actual_read ops self data pos length).thrown = some e := by
    intro e he
    rw [Tag3.actual_read_of_type_error ops self data pos length _ _ t e hsize hv ha ht he]
  refine ⟨⟨?_, ?_⟩, ?_, ?_⟩
  · rintro ⟨t', e, hst, hdisp, -⟩ hgood
    rw [e2, string_at_of_getElem? ht] at hst
    cases hst
    obtain ⟨k, hk⟩ := Tag3.s2k_for_type_ok data t hgood
    rw [hk] at hdisp
    cases hdisp
  · intro hbad
    obtain ⟨msg, hmsg⟩ := Tag3.s2k_for_type_error data t hbad
    exact ⟨t, _, by rw [e2, string_at_of_getElem? ht], hmsg, hthrown _ hmsg⟩
  · rintro rfl
    exact hthrown _ rfl
  · intro h3
    have hbad : ¬(t = 0 ∨ t = 1 ∨ t = 3) := by
      rintro (rfl | rfl | rfl) <;> exact absurd h3 (by decide)
    obtain ⟨msg, hmsg⟩ := Tag3.s2k_for_type_error data t hbad
    exact ⟨msg, hthrown _ hmsg⟩

/-- Witness for C8: the reserved type 2 in a three-octet body. -/
theorem Tag3.actual_read_rejects_type_octet_witness :
    Tag3.rejects_type_octet Sample.s2k (Tag3.default : Tag3 S2K.Specifier) [4, 9, 2] 0 3 :=
  (Tag3.actual_read_rejects_type_octet Sample.s2k Tag3.default [4, 9, 2] 0 3 2
    (by decide) rfl).1.mpr (by decide)

/-- Claim C9: for an otherwise well-formed body, whatever its version and sym-id octets
are, `Tag3::actual_read` succeeds, `get_sym` and the version return the octets
unchanged and `actual_raw` re-emits them unchanged; an unknown value is reported
only by `actual_valid`, as `INVALID_VERSION` or
`INVALID_SYMMETRIC_ENCRYPTION_ALGORITHM`. -/
theorem Tag3.actual_read_keeps_unknown_ids {σ : Type} (ops : S2KOps σ) (sym : SymOps)
    (self : Tag3 σ) (data : ByteString) (pos length : Nat) (v a t : Octet) (k : S2K.Kind)
    (s : σ) (p : Nat)
    (hsize : data.length < SIZE_MOD)
    (hbody : pos + length ≤ data.length)
    (hv : data[pos]? = some v) (ha : data[pos + 1]? = some a) (ht : data[pos + 2]? = some t)
    (hk : Tag3.s2k_for_type data t = .ok k)
    (hread : ops.read (ops.make k) data (pos + 2) = ⟨(s, p), none⟩) :
    (Tag3.actual_read ops self data pos length).thrown = none ∧
    (Tag3.actual_read ops self data pos length).state.1.get_sym = a ∧
    (Tag3.actual_read ops self data pos length).state.1.version = v ∧
    (Tag3.actual_raw ops (Tag3.actual_read ops self data pos length).state.1)[0]? = some v ∧
    (Tag3.actual_raw ops (Tag3.actual_read ops self data pos length).state.1)[1]? = some a ∧
    (v ≠ 4 → Tag3.actual_valid ops sym (Tag3.actual_read ops self data pos length).state.1
      = Status.INVALID_VERSION) ∧
    (v = 4 → sym.valid a = false →
      Tag3.actual_valid ops sym (Tag3.actual_read ops self data pos length).state.1
        = Status.INVALID_SYMMETRIC_ENCRYPTION_ALGORITHM) := by
  rw [Tag3.actual_read_within ops self data pos length v a t k s p hsize hbody hv ha ht hk hread]
  refine ⟨rfl, rfl, rfl, by simp [Tag3.actual_raw], by simp [Tag3.actual_raw], ?_, ?_⟩
  · intro h4
    simp [Tag3.actual_valid, h4]
  · intro h4 hs
    simp [Tag3.actual_valid, h4, hs]

/-- Witness for C9: version 4 with the unassigned sym-id 200 is decoded, re-emitted and
reported only by the validity check. -/
theorem Tag3.actual_read_keeps_unknown_ids_witness :
    (Tag3.actual_read Sample.s2k (Tag3.default : Tag3 S2K.Specifier)
        [4, 200, 0, 2, 50] 0 5).thrown = none ∧
    (Tag3.actual_read Sample.s2k (Tag3.default : Tag3 S2K.Specifier)
        [4, 200, 0, 2, 50] 0 5).state.1.get_sym = 200 ∧
    Tag3.actual_valid Sample.s2k Sample.sym
        (Tag3.actual_read Sample.s2k (Tag3.default : Tag3 S2K.Specifier)
          [4, 200, 0, 2, 50] 0 5).state.1
      = Status.INVALID_SYMMETRIC_ENCRYPTION_ALGORITHM :=
  have h := Tag3.actual_read_keeps_unknown_ids Sample.s2k Sample.sym
    (Tag3.default : Tag3 S2K.Specifier) [4, 200, 0, 2, 50] 0 5 4 200 0 .S2K0 (.simple 2) 4
    (by decide) (by decide) rfl rfl rfl rfl rfl
  ⟨h.1, h.2.1, h.2.2.2.2.2.2 rfl rfl⟩

/-- Counterexample to C10: an iterated-and-salted specifier of 11 octets with declared
length 5.  The call does not fail; the packet holds the S2K built from the octets
beyond the declared length, and the offset is 5. -/
theorem Tag3.actual_read_short_length_counterexample :
    (Tag3.actual_read Sample.s2k (Tag3.default : Tag3 S2K.Specifier)
        [4, 9, 3, 2, 1, 2, 3, 4, 5, 6, 7, 8, 96, 10, 11] 0 5).thrown = none ∧
    (Tag3.actual_read Sample.s2k (Tag3.default : Tag3 S2K.Specifier)
        [4, 9, 3, 2, 1, 2, 3, 4, 5, 6, 7, 8, 96, 10, 11] 0 5).state.1.s2k
      = some (.iterated 2 [1, 2, 3, 4, 5, 6, 7, 8] 96) ∧
    (Tag3.actual_read Sample.s2k (Tag3.default : Tag3 S2K.Specifier)
        [4, 9, 3, 2, 1, 2, 3, 4, 5, 6, 7, 8, 96, 10, 11] 0 5).state.2 = 5 := by
  refine ⟨rfl, rfl, rfl⟩

/-- Claim C10, amended: when the declared length ends before the end of the S2K
specifier and the data holds the whole specifier, `Tag3::actual_read` does not fail;
the packet holds the S2K the reader decoded from the data, octets beyond the declared
length included, the encrypted session key is left as it was and the offset is
`pos + length`. -/
theorem Tag3.actual_read_short_length {σ : Type} (ops : S2KOps σ) (self : Tag3 σ)
    (data : ByteString) (pos length : Nat) (v a t : Octet) (k : S2K.Kind) (s : σ) (p : Nat)
    (hsize : data.length < SIZE_MOD)
    (hv : data[pos]? = some v) (ha : data[pos + 1]? = some a) (ht : data[pos + 2]? = some t)
    (hk : Tag3.s2k_for_type data t = .ok k)
    (hread : ops.read (ops.make k) data (pos + 2) = ⟨(s, p), none⟩)
    (hdata : p ≤ data.length)
    (hshort : pos + length < p) :
    (Tag3.actual_read ops self data pos length).thrown = none ∧
    (Tag3.actual_read ops self data pos length).state.1.s2k = some s ∧
    (Tag3.actual_read ops self data pos length).state.1.esk = self.esk ∧
    (Tag3.actual_read ops self data pos length).state.2 = pos + length := by
  have hmod : (pos + length) % SIZE_MOD = pos + length := Nat.mod_eq_of_lt (by omega)
  have key := Tag3.actual_read_of_read ops self data pos length v a t k _ hsize hv ha ht hk hread
  rw [key, hmod]
  have hlt : ¬ p < pos + length := by omega
  simp only [hlt, if_false, and_self]

/-- Witness for the amended C10: declared length 5, specifier ending at offset 13. -/
theorem Tag3.actual_read_short_length_witness :
    (Tag3.actual_read Sample.s2k (Tag3.default : Tag3 S2K.Specifier)
        [4, 9, 3, 2, 1, 2, 3, 4, 5, 6, 7, 8, 96, 10, 11] 0 5).thrown = none ∧
    (Tag3.actual_read Sample.s2k (Tag3.default : Tag3 S2K.Specifier)
        [4, 9, 3, 2, 1, 2, 3, 4, 5, 6, 7, 8, 96, 10, 11] 0 5).state.1.esk = none :=
  have h := Tag3.actual_read_short_length Sample.s2k (Tag3.default : Tag3 S2K.Specifier)
    [4, 9, 3, 2, 1, 2, 3, 4, 5, 6, 7, 8, 96, 10, 11] 0 5 4 9 3 .S2K3
    (.iterated 2 [1, 2, 3, 4, 5, 6, 7, 8] 96) 13
    (by decide) rfl rfl rfl rfl rfl (by decide) (by decide)
  ⟨h.1, h.2.2.1⟩

/-- Counterexample to C11: three octets of data, offset 1, length 20.  The call does
not fail; it stores the two remaining octets as the hash and moves the offset to 21,
past the end of the data. -/
theorem Tag19.actual_read_short_data_counterexample :
    ((⟨19, 20, []⟩ : Tag19).actual_read [1, 2, 3] 1 20).thrown = none ∧
    ((⟨19, 20, []⟩ : Tag19).actual_read [1, 2, 3] 1 20).state.1.get_hash = [2, 3] ∧
    ((⟨19, 20, []⟩ : Tag19).actual_read [1, 2, 3] 1 20).state.2 = 21 := by
  refine ⟨rfl, rfl, rfl⟩

/-- Claim C11, amended: when fewer than `length` octets remain, `Tag19::actual_read`
fails only if `pos` lies beyond the end of the data, with the `std::out_of_range` of
`substr`, packet and offset unchanged; for `pos <= |data|` it does not fail, stores
the `|data| - pos` remaining octets as the hash and advances the offset by `length`
(modulo `2 ^ 64`). -/
theorem Tag19.actual_read_short_data (self : Tag19) (data : ByteString) (pos length : Nat)
    (h : data.length < pos + length) :
    (data.length < pos →
      (self.actual_read data pos length).thrown = some .out_of_range ∧
      (self.actual_read data pos length).state = (self, pos)) ∧
    (pos ≤ data.length →
      (self.actual_read data pos length).thrown = none ∧
      (self.actual_read data pos length).state.1.get_hash = data.drop pos ∧
      (self.actual_read data pos length).state.1.get_hash.length = data.length - pos ∧
      (self.actual_read data pos length).state.2 = (pos + length) % SIZE_MOD) := by
  constructor
  · intro hpos
    simp [Tag19.actual_read, substr, hpos]
  · intro hpos
    have htake : (data.drop pos).take length = data.drop pos := by
      apply List.take_of_length_le
      simp
      omega
    have hr : self.actual_read data pos length
        = ⟨(self.set_hash (data.drop pos), (pos + length) % SIZE_MOD), none⟩ := by
      simp [Tag19.actual_read, substr_of_le length hpos, htake]
    rw [hr]
    refine ⟨rfl, rfl, ?_, rfl⟩
    simp [Tag19.get_hash, Tag19.set_hash]

/-- Witness for the amended C11: offset 1 and length 20 on three octets of data. -/
theorem Tag19.actual_read_short_data_witness :
    ((⟨19, 20, []⟩ : Tag19).actual_read [1, 2, 3] 1 20).thrown = none ∧
    ((⟨19, 20, []⟩ : Tag19).actual_read [1, 2, 3] 1 20).state.1.get_hash
      = ([1, 2, 3] : ByteString).drop 1 :=
  have h := (Tag19.actual_read_short_data ⟨19, 20, []⟩ [1, 2, 3] 1 20 (by decide)).2 (by decide)
  ⟨h.1, h.2.1⟩

/-- Claim C12, at the inputs where it fails: when the source packet has no S2K or no
encrypted session key, `operator=` goes through the null pointer instead of
succeeding, while `clone()` copies the packet and keeps the absent field absent. -/
theorem Tag3.operator_assign_absent_field {σ : Type} (ops : S2KOps σ) (self src : Tag3 σ)
    (h : src.s2k = none ∨ src.esk = none) :
    (Tag3.operator_assign ops self src).thrown = some .null_dereference ∧
    (Tag3.clone ops src).version = src.version ∧
    (Tag3.clone ops src).sym = src.sym ∧
    (Tag3.clone ops src).s2k = src.s2k.map ops.clone ∧
    (Tag3.clone ops src).esk = src.esk := by
  refine ⟨?_, rfl, rfl, ?_, ?_⟩
  · rcases h with h | h
    · simp [Tag3.operator_assign, h]
    · cases hs : src.s2k <;> simp [Tag3.operator_assign, h, hs]
  · cases hs : src.s2k <;> simp [Tag3.clone, hs]
  · cases he : src.esk <;> simp [Tag3.clone, he]

/-- Witness for C12: a source packet with a salted S2K and no encrypted session key. -/
theorem Tag3.operator_assign_absent_field_witness :
    (Tag3.operator_assign Sample.s2k (Tag3.default : Tag3 S2K.Specifier)
        { tag := 3, version := 4, sym := 9,
          s2k := some (.salted 2 [1, 2, 3, 4, 5, 6, 7, 8]), esk := none }).thrown
      = some .null_dereference ∧
    (Tag3.clone Sample.s2k
        ({ tag := 3, version := 4, sym := 9,
           s2k := some (.salted 2 [1, 2, 3, 4, 5, 6, 7, 8]), esk := none } :
          Tag3 S2K.Specifier)).esk = none :=
  have h := Tag3.operator_assign_absent_field Sample.s2k (Tag3.default : Tag3 S2K.Specifier)
    { tag := 3, version := 4, sym := 9,
      s2k := some (.salted 2 [1, 2, 3, 4, 5, 6, 7, 8]), esk := none } (Or.inr rfl)
  ⟨h.1, h.2.2.2.2⟩

end Packet

namespace Key

/-! ## Key grammar -/

theorem group_ungroup (ps : List Pkt) :
    (group ps).1 ++ (group ps).2.flatMap Block.packets = ps := by
  induction ps with
  | nil => rfl
  | cons p rest ih =>
    unfold group
    by_cases hp : is_signature p = true
    · simp only [hp, if_true, List.cons_append, ih]
    · simp only [hp, if_false, List.nil_append, List.flatMap_cons, Block.packets,
        List.cons_append, ih, Bool.false_eq_true]

theorem parse_flatten {ps : List Pkt} {v : Parsed} (h : parse ps = some v) : v.flatten = ps := by
  cases ps with
  | nil => simp [parse] at h
  | cons p rest =>
    simp only [parse] at h
    split at h
    · cases h
      simp only [Parsed.flatten, List.takeWhile_append_dropWhile]
      rw [group_ungroup]
    · cases h

end Key

namespace Key

theorem meaningful_iff {ps : List Pkt} : meaningful ps = true ↔ ∃ v, parse ps = some v := by
  simp [meaningful, Option.isSome_iff_exists]

theorem union_sigs_of_subset {xs ys : List Pkt} (h : ∀ y ∈ ys, y ∈ xs) :
    union_sigs xs ys = xs := by
  unfold union_sigs
  induction ys with
  | nil => rfl
  | cons y rest ih =>
    rw [List.foldl_cons]
    have hy : add_sig xs y = xs := by simp [add_sig, h y (List.mem_cons_self _ _)]
    rw [hy]
    exact ih (fun z hz => h z (List.mem_cons_of_mem _ hz))

end Key

namespace Key

/-! ## Union of blocks -/

section blocks

variable {κ : Type} [DecidableEq κ] (ident : Pkt → κ)

theorem has_owner_iff {blocks : List Block} {o : Pkt} :
    has_owner ident blocks o = true ↔ ∃ b ∈ blocks, ident b.owner = ident o := by
  simp [has_owner]

theorem has_pair_iff {blocks : List Block} {o s : Pkt} :
    has_pair ident blocks o s = true ↔ ∃ b ∈ blocks, ident b.owner = ident o ∧ s ∈ b.sigs := by
  simp [has_pair]

theorem extend_first_nil (o : Pkt) (blocks : List Block) :
    extend_first ident o [] blocks = blocks := by
  induction blocks with
  | nil => rfl
  | cons b rest ih =>
    unfold extend_first
    by_cases h : ident b.owner = ident o
    · simp [h, union_sigs]
    · simp [h, ih]

theorem add_block_of_mem {R : List Block} {b : Block} (hb : b ∈ R) :
    add_block ident R b = R := by
  unfold add_block
  have ho : has_owner ident R b.owner = true := (has_owner_iff ident).mpr ⟨b, hb, rfl⟩
  have hfilter : b.sigs.filter (fun s => !has_pair ident R b.owner s) = [] := by
    rw [List.filter_eq_nil_iff]
    intro s hs
    have : has_pair ident R b.owner s = true := (has_pair_iff ident).mpr ⟨b, hb, rfl, hs⟩
    simp [this]
  rw [if_pos ho, hfilter, extend_first_nil]

theorem union_blocks_self (xs : List Block) : union_blocks ident xs xs = xs := by
  unfold union_blocks
  have key : ∀ ys : List Block, (∀ b ∈ ys, b ∈ xs) → ys.foldl (add_block ident) xs = xs := by
    intro ys
    induction ys with
    | nil => intro _; rfl
    | cons y rest ih =>
      intro h
      rw [List.foldl_cons, add_block_of_mem ident (h y (List.mem_cons_self _ _))]
      exact ih (fun b hb => h b (List.mem_cons_of_mem _ hb))
  exact key xs (fun b hb => hb)

end blocks

end Key

namespace Key

/-! ## Merge -/

theorem merge_of_parse {κ : Type} [DecidableEq κ] (fp : Pkt → κ) {A B : List Pkt}
    {a b : Parsed} (hA : parse A = some a) (hB : parse B = some b)
    (hp : a.primary = b.primary) :
    merge fp A B = .ok (merge_parsed fp a b).flatten := by
  simp [merge, hA, hB, hp]

end Key

namespace Key

/-- Claim C15: merging a meaningful key with itself returns the same flat packet list,
hence the same derived view. -/
theorem merge_idempotent {κ : Type} [DecidableEq κ] (fingerprint : Pkt → κ) (A : List Pkt)
    (hA : meaningful A = true) :
    merge fingerprint A A = .ok A ∧
    ∀ M, merge fingerprint A A = .ok M → M = A ∧ get_pkey M = get_pkey A := by
  obtain ⟨a, ha⟩ := meaningful_iff.mp hA
  have hself : merge_parsed fingerprint a a = a := by
    simp only [merge_parsed, union_sigs_of_subset (fun y hy => hy), union_blocks_self]
  have hm : merge fingerprint A A = .ok A := by
    rw [merge_of_parse fingerprint ha ha rfl, hself, parse_flatten ha]
  refine ⟨hm, ?_⟩
  intro M hM
  rw [hm] at hM
  cases hM
  exact ⟨rfl, rfl⟩

end Key

namespace Key

/-- Witness for C15: the second sample key merged with itself. -/
theorem merge_idempotent_witness :
    merge Pkt.raw sample_right sample_right = .ok sample_right :=
  (merge_idempotent Pkt.raw sample_right (by decide)).1

end Key

/-! ## Key generation config -/

/-- Claim C13: `KeyGen::Config::valid()` is true exactly when there is at least one user
ID, the primary PKA id is recognised and can sign, the primary sym and hash ids are
recognised and every subkey has recognised PKA, sym, S2K-hash and signing-hash ids; in
particular a config without user ID is not valid, and with tables in which 255 is not
recognised a config with one of these ids set to 255 is not valid. -/
theorem KeyGen.Config.valid_iff (reg : KeyGen.Registry) (c : KeyGen.Config)
    (h255 : reg.pka_known 255 = false ∧ reg.sym_known 255 = false ∧
      reg.hash_known 255 = false) :
    (c.valid reg = true ↔
      c.uids ≠ [] ∧ reg.pka_known c.pka = true ∧ reg.can_sign c.pka = true ∧
      reg.sym_known c.sym = true ∧ reg.hash_known c.hash = true ∧
      ∀ k ∈ c.subkeys, reg.pka_known k.pka = true ∧ reg.sym_known k.sym = true ∧
        reg.hash_known k.hash = true ∧ reg.hash_known k.sig = true) ∧
    (c.uids = [] → c.valid reg = false) ∧
    ((c.pka = 255 ∨ c.sym = 255 ∨ c.hash = 255 ∨
        ∃ k ∈ c.subkeys, k.pka = 255 ∨ k.sym = 255 ∨ k.hash = 255 ∨ k.sig = 255) →
      c.valid reg = false) := by
  have hiff : c.valid reg = true ↔
      c.uids ≠ [] ∧ reg.pka_known c.pka = true ∧ reg.can_sign c.pka = true ∧
      reg.sym_known c.sym = true ∧ reg.hash_known c.hash = true ∧
      ∀ k ∈ c.subkeys, reg.pka_known k.pka = true ∧ reg.sym_known k.sym = true ∧
        reg.hash_known k.hash = true ∧ reg.hash_known k.sig = true := by
    simp only [KeyGen.Config.valid, Bool.and_eq_true, Bool.not_eq_true', List.isEmpty_eq_false,
      List.all_eq_true, and_assoc, ne_eq]
  refine ⟨hiff, ?_, ?_⟩
  · intro hu
    rw [← Bool.not_eq_true, hiff]
    exact fun h => h.1 hu
  · intro hbad
    rw [← Bool.not_eq_true, hiff]
    rintro ⟨-, hp, -, hs, hh, hk⟩
    rcases hbad with h | h | h | ⟨k, hkm, h⟩
    · rw [h, h255.1] at hp
      cases hp
    · rw [h, h255.2.1] at hs
      cases hs
    · rw [h, h255.2.2] at hh
      cases hh
    · obtain ⟨h1, h2, h3, h4⟩ := hk k hkm
      rcases h with h | h | h | h
      · rw [h, h255.1] at h1
        cases h1
      · rw [h, h255.2.1] at h2
        cases h2
      · rw [h, h255.2.2] at h3
        cases h3
      · rw [h, h255.2.2] at h4
        cases h4

/-- Witness for C13: with the RFC 4880 tables, RSA with AES-256 and SHA-256 and one user
ID is valid. -/
theorem KeyGen.Config.valid_iff_witness :
    KeyGen.Config.valid KeyGen.rfc4880
      { passphrase := [], pka := 1, bits := 2048, sym := 9, hash := 8, uids := [[97]],
        subkeys := [⟨1, 2048, 9, 8, 8⟩] } = true :=
  (KeyGen.Config.valid_iff KeyGen.rfc4880
    { passphrase := [], pka := 1, bits := 2048, sym := 9, hash := 8, uids := [[97]],
      subkeys := [⟨1, 2048, 9, 8, 8⟩] } (by decide)).1.mpr (by decide)

/-! ## Hex strings -/

theorem hex_value_hex_digit (caps : Bool) (d : Fin 16) :
    hex_value (hex_digit caps d.val) = some d.val := by
  revert caps d
  decide

theorem unhexlify_pairs_hexlify (s : ByteString) (caps : Bool) :
    unhexlify_pairs (hexlify s caps) = .ok s := by
  induction s with
  | nil => rfl
  | cons b rest ih =>
    have hhi := hex_value_hex_digit caps ⟨b.val / 16, by omega⟩
    have hlo := hex_value_hex_digit caps ⟨b.val % 16, by omega⟩
    have hb : (Fin.ofNat (b.val / 16 * 16 + b.val % 16) : Octet) = b := by
      apply Fin.ext
      simp only [Fin.ofNat, Nat.div_add_mod']
      exact Nat.mod_eq_of_lt b.isLt
    have hrest : hexlify (b :: rest) caps
        = hex_digit caps (b.val / 16) :: hex_digit caps (b.val % 16) :: hexlify rest caps := rfl
    rw [hrest, unhexlify_pairs]
    simp only [hhi, hlo, ih, hb]

theorem hexlify_length (s : ByteString) (caps : Bool) :
    (hexlify s caps).length = 2 * s.length := by
  induction s with
  | nil => rfl
  | cons b rest ih =>
    have hrest : hexlify (b :: rest) caps
        = hex_digit caps (b.val / 16) :: hex_digit caps (b.val % 16) :: hexlify rest caps := rfl
    rw [hrest, List.length_cons, List.length_cons, ih, List.length_cons]
    omega

theorem hex_digit_lower (d : Fin 16) :
    (48 ≤ (hex_digit false d.val).val ∧ (hex_digit false d.val).val ≤ 57) ∨
    (97 ≤ (hex_digit false d.val).val ∧ (hex_digit false d.val).val ≤ 102) := by
  revert d
  decide

/-- Claim C20: for every byte string `s`, `unhexlify(hexlify(s))` returns `s`, and
`hexlify(s)` consists of two lowercase hex digits for every octet of `s`. -/
theorem unhexlify_hexlify (s : ByteString) :
    unhexlify (hexlify s false) = .ok s ∧
    (hexlify s false).length = 2 * s.length ∧
    (∀ c ∈ hexlify s false, (48 ≤ c.val ∧ c.val ≤ 57) ∨ (97 ≤ c.val ∧ c.val ≤ 102)) ∧
    (∀ i, ∀ h : i < s.length,
      (hexlify s false)[2 * i]? = some (hex_digit false (s[i].val / 16)) ∧
      (hexlify s false)[2 * i + 1]? = some (hex_digit false (s[i].val % 16))) := by
  refine ⟨?_, hexlify_length s false, ?_, ?_⟩
  · have hlen := hexlify_length s false
    have hodd : ¬ (hexlify s false).length % 2 = 1 := by omega
    rw [unhexlify, if_neg hodd]
    exact unhexlify_pairs_hexlify s false
  · intro c hc
    simp only [hexlify, List.mem_flatMap, List.mem_cons, List.mem_singleton, List.not_mem_nil,
      or_false] at hc
    obtain ⟨b, -, rfl | rfl⟩ := hc
    · exact hex_digit_lower ⟨b.val / 16, by omega⟩
    · exact hex_digit_lower ⟨b.val % 16, by omega⟩
  · induction s with
    | nil => intro i h; simp at h
    | cons b rest ih =>
      intro i h
      have hrest : hexlify (b :: rest) false
          = hex_digit false (b.val / 16) :: hex_digit false (b.val % 16) :: hexlify rest false :=
        rfl
      cases i with
      | zero => simp [hrest]
      | succ j =>
        have hj : j < rest.length := by simpa using h
        have := ih j hj
        rw [hrest]
        have e1 : 2 * (j + 1) = 2 * j + 1 + 1 := by ring
        rw [e1]
        simpa using this

namespace Framing

/-! ## Packet framing -/

theorem ofNat_val (k : Nat) : ((Fin.ofNat k : Octet)).val = k % 256 := rfl

theorem read_length_write_length (n : Nat) (rest : ByteString) (hn : n < 4294967296) :
    read_length (write_length n ++ rest) = some (n, false, rest) := by
  unfold write_length
  by_cases h1 : n < 192
  · have hv : (Fin.ofNat n : Octet).val = n := by rw [ofNat_val]; omega
    simp only [h1, if_true, List.singleton_append, read_length, hv]
  · by_cases h2 : n < 8384
    · have hf : (Fin.ofNat ((n - 192) / 256 + 192) : Octet).val = (n - 192) / 256 + 192 := by
        rw [ofNat_val]; omega
      have hs : (Fin.ofNat ((n - 192) % 256) : Octet).val = (n - 192) % 256 := by
        rw [ofNat_val]; omega
      have hf1 : ¬ (n - 192) / 256 + 192 < 192 := by omega
      have hf2 : (n - 192) / 256 + 192 < 224 := by omega
      have hval : ((n - 192) / 256 + 192 - 192) * 256 + (n - 192) % 256 + 192 = n := by omega
      simp only [h1, h2, if_true, if_false, List.cons_append, List.nil_append, read_length, hf,
        hs, hf1, hf2, hval]
    · have ha : (Fin.ofNat (n / 16777216) : Octet).val = n / 16777216 := by
        rw [ofNat_val]; omega
      have hb : (Fin.ofNat (n / 65536) : Octet).val = n / 65536 % 256 := ofNat_val _
      have hc : (Fin.ofNat (n / 256) : Octet).val = n / 256 % 256 := ofNat_val _
      have hd : (Fin.ofNat n : Octet).val = n % 256 := ofNat_val _
      have h255 : ((255 : Octet)).val = 255 := rfl
      have hval : n / 16777216 * 16777216 + n / 65536 % 256 * 65536 + n / 256 % 256 * 256
          + n % 256 = n := by omega
      simp only [h1, h2, if_false, List.cons_append, List.nil_append, read_length, h255, ha, hb,
        hc, hd, hval]
      simp

theorem read_length_chunk (e : Nat) (rest : ByteString) (he : e ≤ 30) :
    read_length (Fin.ofNat (224 + e) :: rest) = some (2 ^ e, true, rest) := by
  have hv : (Fin.ofNat (224 + e) : Octet).val = 224 + e := by rw [ofNat_val]; omega
  have h1 : ¬ 224 + e < 192 := by omega
  have h2 : ¬ 224 + e < 224 := by omega
  have h3 : ¬ 224 + e = 255 := by omega
  have h4 : (224 + e) % 32 = e := by omega
  simp only [read_length, hv, h1, h2, h3, h4, if_false]

theorem write_length_length_pos (n : Nat) : 0 < (write_length n).length := by
  unfold write_length
  split
  · simp
  · split <;> simp

theorem write_chunks_length (policy : Nat → Option Nat) :
    ∀ fuel body, body.length < (write_chunks policy fuel body).length := by
  intro fuel
  induction fuel with
  | zero =>
    intro body
    have := write_length_length_pos body.length
    simp only [write_chunks, List.length_append]
    omega
  | succ fuel ih =>
    intro body
    unfold write_chunks
    cases hp : policy body.length with
    | none =>
      have := write_length_length_pos body.length
      simp only [List.length_append]
      omega
    | some e =>
      have := ih (body.drop (2 ^ e))
      simp only [List.length_cons, List.length_append, List.length_take, List.length_drop] at this ⊢
      omega

theorem read_write_chunks (policy : Nat → Option Nat)
    (hvalid : ∀ n e, policy n = some e → e ≤ 30 ∧ 2 ^ e ≤ n)
    (hfinal : ∀ n, policy n = none → n < 4294967296) :
    ∀ fuel body after F, body.length ≤ fuel → fuel < F →
      read_chunks F (write_chunks policy fuel body ++ after)
        = some (body, (policy body.length).isSome, after) := by
  intro fuel
  induction fuel with
  | zero =>
    intro body after F hb hF
    have hnil : body = [] := List.length_eq_zero.mp (by omega)
    subst hnil
    have hp : policy 0 = none := by
      cases hp : policy 0 with
      | none => rfl
      | some e =>
        have := (hvalid 0 e hp).2
        have hpos : 0 < 2 ^ e := Nat.pow_pos (by decide)
        omega
    obtain ⟨F', rfl⟩ : ∃ F', F = F' + 1 := ⟨F - 1, by omega⟩
    simp only [write_chunks, List.length_nil, List.append_nil, read_chunks, hp, Option.isSome_none,
      read_length_write_length 0 after (by decide)]
    simp
  | succ fuel ih =>
    intro body after F hb hF
    obtain ⟨F', rfl⟩ : ∃ F', F = F' + 1 := ⟨F - 1, by omega⟩
    unfold write_chunks
    cases hp : policy body.length with
    | none =>
      simp only [read_chunks, List.append_assoc,
        read_length_write_length body.length (body ++ after) (hfinal _ hp), Option.isSome_none]
      simp
    | some e =>
      obtain ⟨he, hle⟩ := hvalid _ _ hp
      have hpos : 0 < 2 ^ e := Nat.pow_pos (by decide)
      have hih := ih (body.drop (2 ^ e)) after F' (by simp only [List.length_drop]; omega)
        (by omega)
      have htake : (body.take (2 ^ e)).length = 2 ^ e := by
        rw [List.length_take]; omega
      simp only [List.cons_append, List.append_assoc, read_chunks, read_length_chunk e _ he,
        Option.isSome_some]
      have hlen : ¬ (body.take (2 ^ e) ++
          (write_chunks policy fuel (body.drop (2 ^ e)) ++ after)).length < 2 ^ e := by
        rw [List.length_append, htake]; omega
      have hdrop : (body.take (2 ^ e) ++
          (write_chunks policy fuel (body.drop (2 ^ e)) ++ after)).drop (2 ^ e)
            = write_chunks policy fuel (body.drop (2 ^ e)) ++ after := by
        rw [List.drop_append_of_le_length (by omega), List.drop_of_length_le (by omega)]
        rfl
      have htk : (body.take (2 ^ e) ++
          (write_chunks policy fuel (body.drop (2 ^ e)) ++ after)).take (2 ^ e)
            = body.take (2 ^ e) := by
        rw [List.take_append_of_le_length (by omega), List.take_of_length_le (by omega)]
      simp only [hlen, if_false, if_true, hdrop, htk, hih, List.take_append_drop]

theorem read_body_raw (p : Tag11) (chunked : Bool)
    (hname : p.filename.length < 256) (htime : p.time < 4294967296) :
    Tag11.read_body chunked p.raw = some { p with partial_body := chunked } := by
  have hn : (Fin.ofNat p.filename.length : Octet).val = p.filename.length := by
    rw [ofNat_val]; omega
  have ha : (Fin.ofNat (p.time / 16777216) : Octet).val = p.time / 16777216 := by
    rw [ofNat_val]; omega
  have hb : (Fin.ofNat (p.time / 65536) : Octet).val = p.time / 65536 % 256 := ofNat_val _
  have hc : (Fin.ofNat (p.time / 256) : Octet).val = p.time / 256 % 256 := ofNat_val _
  have hd : (Fin.ofNat p.time : Octet).val = p.time % 256 := ofNat_val _
  have hval : p.time / 16777216 * 16777216 + p.time / 65536 % 256 * 65536
      + p.time / 256 % 256 * 256 + p.time % 256 = p.time := by omega
  have hraw : p.raw = p.format :: Fin.ofNat p.filename.length ::
      (p.filename ++ (Fin.ofNat (p.time / 16777216) :: Fin.ofNat (p.time / 65536) ::
        Fin.ofNat (p.time / 256) :: Fin.ofNat p.time :: p.literal)) := by
    simp [Tag11.raw]
  rw [hraw]
  simp only [Tag11.read_body, hn, List.drop_left, List.take_left, ha, hb, hc, hd, hval,
    List.length_append, List.length_cons]
  have : ¬ p.filename.length + (p.literal.length + 1 + 1 + 1 + 1) < p.filename.length := by omega
  simp only [this, if_false]

end Framing

namespace Framing

theorem chunks_of_512_valid :
    ∀ n e, chunks_of_512 n = some e → e ≤ 30 ∧ 2 ^ e ≤ n := by
  intro n e h
  unfold chunks_of_512 at h
  split at h
  · cases h
    exact ⟨by decide, by omega⟩
  · cases h

theorem chunks_of_512_chunk : ∀ n, 512 ≤ n → chunks_of_512 n ≠ none := by
  intro n h
  simp [chunks_of_512, h]

/-- Claim C18: a literal data packet marked partial whose payload has at least 512
octets, written with partial-body-length framing and read back, gives that one
packet and nothing else: still marked partial, with the same format, filename,
timestamp and payload.  The encoder may cut the body into any partial chunks of
`2 ^ e` octets, `e <= 30`, as long as it emits one while 512 octets or more remain. -/
theorem Tag11.partial_roundtrip (policy : Nat → Option Nat) (p : Tag11)
    (hmarked : p.partial_body = true)
    (hliteral : 512 ≤ p.literal.length)
    (hname : p.filename.length < 256)
    (htime : p.time < 4294967296)
    (hvalid : ∀ n e, policy n = some e → e ≤ 30 ∧ 2 ^ e ≤ n)
    (hchunk : ∀ n, 512 ≤ n → policy n ≠ none) :
    Tag11.read (Tag11.write policy p) = some (p, []) ∧
    ∃ q, Tag11.read (Tag11.write policy p) = some (q, []) ∧ q.partial_body = true ∧
      q.format = p.format ∧ q.filename = p.filename ∧ q.time = p.time ∧
      q.literal = p.literal := by
  have hfinal : ∀ n, policy n = none → n < 4294967296 := by
    intro n hn
    by_contra hbig
    exact hchunk n (by omega) hn
  have hrawlen : 512 ≤ p.raw.length := by
    simp only [Tag11.raw, List.length_append, List.length_cons, List.length_nil]
    omega
  have hsome : (policy p.raw.length).isSome = true := by
    cases hp : policy p.raw.length with
    | none => exact absurd hp (hchunk _ hrawlen)
    | some e => rfl
  have hchunks := read_write_chunks policy hvalid hfinal p.raw.length p.raw []
    ((write_chunks policy p.raw.length p.raw).length + 1) (Nat.le_refl _)
    (by have := write_chunks_length policy p.raw.length p.raw; omega)
  rw [List.append_nil, hsome] at hchunks
  have hh : (Fin.ofNat (192 + LITERAL_DATA) : Octet).val = 203 := rfl
  have hpkt : read_packet (write_packet policy ⟨LITERAL_DATA, p.partial_body, p.raw⟩)
      = some (⟨LITERAL_DATA, true, p.raw⟩, []) := by
    simp only [write_packet, hmarked, if_true, read_packet, hh, hchunks]
    rfl
  have hbody := read_body_raw p true hname htime
  have hp : ({ p with partial_body := true } : Tag11) = p := by
    cases p
    simp only [Tag11.mk.injEq, and_true] at hmarked ⊢
    exact hmarked.symm
  have hread : Tag11.read (Tag11.write policy p) = some (p, []) := by
    simp only [Tag11.read, Tag11.write, hpkt, if_true, hbody, hp]
  exact ⟨hread, p, hread, hmarked, rfl, rfl, rfl, rfl⟩

/-- Witness for C18: a text literal of 512 octets named "fn", in chunks of 512 octets. -/
theorem Tag11.partial_roundtrip_witness :
    Tag11.read (Tag11.write chunks_of_512 ⟨true, 116, [102, 110], 1234567890,
        List.replicate 512 65⟩)
      = some (⟨true, 116, [102, 110], 1234567890, List.replicate 512 65⟩, []) :=
  (Tag11.partial_roundtrip chunks_of_512 ⟨true, 116, [102, 110], 1234567890,
      List.replicate 512 65⟩ rfl (List.length_replicate 512 (65 : Octet)).ge (by decide) (by decide)
    chunks_of_512_valid chunks_of_512_chunk).1

end Framing

namespace Packet

/-- Claim C26: `Tag3::set_s2k(s)` fails exactly when `s` is null or its type is neither
salted nor iterated-and-salted; when it fails, with a `std::runtime_error`, the packet
is unchanged; when it succeeds the packet holds the clone of `s`, equal to `s` when a
clone equals its original, and tag, version, sym-id and encrypted session key are
unchanged. -/
theorem Tag3.set_s2k_fails_iff {σ : Type} (ops : S2KOps σ) (self : Tag3 σ) (s : Option σ) :
    ((Tag3.set_s2k ops self s).thrown ≠ none ↔
      (s = none ∨ ∃ x, s = some x ∧ ops.get_type x ≠ S2K.ID.SALTED_S2K ∧
        ops.get_type x ≠ S2K.ID.ITERATED_AND_SALTED_S2K)) ∧
    ((Tag3.set_s2k ops self s).thrown ≠ none →
      (∃ msg, (Tag3.set_s2k ops self s).thrown = some (.runtime_error msg)) ∧
      (Tag3.set_s2k ops self s).state = self) ∧
    (∀ x, s = some x → (Tag3.set_s2k ops self s).thrown = none →
      (Tag3.set_s2k ops self s).state.s2k = some (ops.clone x) ∧
      (ops.clone x = x → (Tag3.set_s2k ops self s).state.s2k = s) ∧
      (Tag3.set_s2k ops self s).state.tag = self.tag ∧
      (Tag3.set_s2k ops self s).state.version = self.version ∧
      (Tag3.set_s2k ops self s).state.sym = self.sym ∧
      (Tag3.set_s2k ops self s).state.esk = self.esk) := by
  cases s with
  | none =>
    refine ⟨?_, ?_, ?_⟩
    · simp [Tag3.set_s2k]
    · intro _
      exact ⟨⟨_, rfl⟩, rfl⟩
    · intro x hx
      cases hx
  | some y =>
    by_cases hc : ops.get_type y ≠ S2K.ID.SALTED_S2K ∧
        ops.get_type y ≠ S2K.ID.ITERATED_AND_SALTED_S2K
    · have hr : Tag3.set_s2k ops self (some y)
          = ⟨self, some (.runtime_error "Error: S2K must have a salt value.")⟩ := by
        simp only [Tag3.set_s2k]
        rw [if_pos hc]
      rw [hr]
      refine ⟨?_, ?_, ?_⟩
      · simp only [ne_eq, reduceCtorEq, not_false_eq_true, false_or, Option.some.injEq,
          true_iff]
        exact ⟨y, rfl, hc⟩
      · intro _
        exact ⟨⟨_, rfl⟩, rfl⟩
      · intro x _ hnone
        cases hnone
    · have hr : Tag3.set_s2k ops self (some y)
          = ⟨{ self with s2k := some (ops.clone y) }, none⟩ := by
        simp only [Tag3.set_s2k]
        rw [if_neg hc]
      rw [hr]
      refine ⟨?_, ?_, ?_⟩
      · simp only [ne_eq, not_true_eq_false, reduceCtorEq, Option.some.injEq, false_or,
          false_iff, not_exists, not_and]
        rintro x rfl h1 h2
        exact hc ⟨h1, h2⟩
      · intro h
        exact absurd rfl h
      · intro x hx _
        cases hx
        refine ⟨rfl, ?_, rfl, rfl, rfl, rfl⟩
        intro hclone
        simp only [hclone]

/-- Counterexample to C28: the body 04 09 00 02 is decoded without error and the packet
then holds a simple S2K, type 0, which has no salt. -/
theorem Tag3.s2k_has_salt_counterexample :
    (Tag3.actual_read Sample.s2k (Tag3.default : Tag3 S2K.Specifier) [4, 9, 0, 2] 0 4).thrown
      = none ∧
    (Tag3.actual_read Sample.s2k (Tag3.default : Tag3 S2K.Specifier) [4, 9, 0, 2] 0 4).state.1.s2k
      = some (.simple 2) ∧
    Sample.s2k.get_type (.simple 2) = S2K.ID.SIMPLE_S2K ∧
    S2K.ID.SIMPLE_S2K ≠ S2K.ID.SALTED_S2K ∧
    S2K.ID.SIMPLE_S2K ≠ S2K.ID.ITERATED_AND_SALTED_S2K := by
  refine ⟨rfl, rfl, rfl, by decide, by decide⟩

/-- Claim C28, amended: an S2K installed by `set_s2k` is of type salted or
iterated-and-salted; `actual_read` installs the class its type octet selects, and for
the type octet 0 that is the simple S2K read by `S2K0::read`, which has no salt. -/
theorem Tag3.s2k_salt_only_by_setter {σ : Type} (ops : S2KOps σ) (self : Tag3 σ)
    (data : ByteString) (pos length : Nat) (v a : Octet) (s : σ) (p : Nat)
    (hsize : data.length < SIZE_MOD)
    (hbody : pos + length ≤ data.length)
    (hv : data[pos]? = some v) (ha : data[pos + 1]? = some a)
    (ht : data[pos + 2]? = some S2K.ID.SIMPLE_S2K)
    (hread : ops.read (ops.make .S2K0) data (pos + 2) = ⟨(s, p), none⟩) :
    ((Tag3.actual_read ops self data pos length).thrown = none ∧
      (Tag3.actual_read ops self data pos length).state.1.s2k = some s) ∧
    (∀ x : Option σ, (Tag3.set_s2k ops self x).thrown = none →
      ∃ y, x = some y ∧
        (ops.get_type y = S2K.ID.SALTED_S2K ∨
          ops.get_type y = S2K.ID.ITERATED_AND_SALTED_S2K) ∧
        (Tag3.set_s2k ops self x).state.s2k = some (ops.clone y)) := by
  constructor
  · rw [Tag3.actual_read_within ops self data pos length v a _ .S2K0 s p hsize hbody hv ha ht
      (Tag3.s2k_for_type_simple data) hread]
    exact ⟨rfl, rfl⟩
  · intro x hx
    cases x with
    | none => simp [Tag3.set_s2k] at hx
    | some y =>
      by_cases hc : ops.get_type y ≠ S2K.ID.SALTED_S2K ∧
          ops.get_type y ≠ S2K.ID.ITERATED_AND_SALTED_S2K
      · simp [Tag3.set_s2k, hc] at hx
      · refine ⟨y, rfl, ?_, ?_⟩
        · by_contra hno
          exact hc ⟨fun h => hno (Or.inl h), fun h => hno (Or.inr h)⟩
        · simp only [Tag3.set_s2k]
          rw [if_neg hc]

/-- Witness for the amended C28: the body 04 09 00 02 read into a default packet. -/
theorem Tag3.s2k_salt_only_by_setter_witness :
    (Tag3.actual_read Sample.s2k (Tag3.default : Tag3 S2K.Specifier) [4, 9, 0, 2] 0 4).thrown
      = none ∧
    (Tag3.actual_read Sample.s2k (Tag3.default : Tag3 S2K.Specifier) [4, 9, 0, 2] 0 4).state.1.s2k
      = some (.simple 2) :=
  (Tag3.s2k_salt_only_by_setter Sample.s2k (Tag3.default : Tag3 S2K.Specifier) [4, 9, 0, 2] 0 4
    4 9 (.simple 2) 4 (by decide) (by decide) rfl rfl rfl rfl).1

/-- Counterexample to C29: an S2K is set and `sk` has three octets, but the sym-id 200 has
no key length; the call fails with `std::out_of_range` and the packet is left without
encrypted session key. -/
theorem Tag3.set_session_key_present_counterexample :
    (Tag3.set_session_key Sample.s2k Sample.sym
        (⟨3, 4, 200, some (.salted 2 [1, 2, 3, 4, 5, 6, 7, 8]), some [1]⟩ :
          Tag3 S2K.Specifier) [112] [9, 1, 2]).thrown = some .out_of_range ∧
    (Tag3.set_session_key Sample.s2k Sample.sym
        (⟨3, 4, 200, some (.salted 2 [1, 2, 3, 4, 5, 6, 7, 8]), some [1]⟩ :
          Tag3 S2K.Specifier) [112] [9, 1, 2]).state.esk = none := by
  refine ⟨rfl, rfl⟩

/-- Claim C29, amended: `set_session_key(pass, sk)` never changes tag, version, sym-id or
S2K.  Without S2K, or with `sk` of at most one octet, it does not fail and leaves no
encrypted session key.  In every other case it either fails and leaves no encrypted
session key, or the sym-id has key and block lengths and the encrypted session key
afterwards is the CFB encryption of `sk` under the S2K-derived key and the zero IV, of
the length of `sk` when that encryption keeps the length. -/
theorem Tag3.set_session_key_frame {σ : Type} (ops : S2KOps σ) (sym : SymOps)
    (self : Tag3 σ) (pass sk : ByteString) :
    ((Tag3.set_session_key ops sym self pass sk).state.tag = self.tag ∧
      (Tag3.set_session_key ops sym self pass sk).state.version = self.version ∧
      (Tag3.set_session_key ops sym self pass sk).state.sym = self.sym ∧
      (Tag3.set_session_key ops sym self pass sk).state.s2k = self.s2k) ∧
    ((self.s2k = none ∨ sk.length ≤ 1) →
      (Tag3.set_session_key ops sym self pass sk).thrown = none ∧
      (Tag3.set_session_key ops sym self pass sk).state.esk = none) ∧
    (∀ s, self.s2k = some s → 1 < sk.length →
      ((Tag3.set_session_key ops sym self pass sk).thrown ≠ none ∧
        (Tag3.set_session_key ops sym self pass sk).state.esk = none) ∨
      (∃ kl bl key c, sym.KEY_LENGTH self.sym = some kl ∧ sym.BLOCK_LENGTH self.sym = some bl ∧
        ops.run s pass (kl / 8) = .ok key ∧
        sym.use_normal_CFB_encrypt self.sym sk key (List.replicate (bl / 8) 0) = .ok c ∧
        (Tag3.set_session_key ops sym self pass sk).thrown = none ∧
        (Tag3.set_session_key ops sym self pass sk).state.esk = some c)) := by
  have hshift : ∀ n : Nat, n >>> 3 = n / 8 := fun n => by rw [Nat.shiftRight_eq_div_pow]
  refine ⟨?_, ?_, ?_⟩
  · unfold Tag3.set_session_key
    cases self.s2k with
    | none => exact ⟨rfl, rfl, rfl, rfl⟩
    | some s =>
      simp only
      split
      · split
        · exact ⟨rfl, rfl, rfl, rfl⟩
        · split
          · exact ⟨rfl, rfl, rfl, rfl⟩
          · split
            · exact ⟨rfl, rfl, rfl, rfl⟩
            · split
              · exact ⟨rfl, rfl, rfl, rfl⟩
              · exact ⟨rfl, rfl, rfl, rfl⟩
      · exact ⟨rfl, rfl, rfl, rfl⟩
  · intro h
    unfold Tag3.set_session_key
    cases hs : self.s2k with
    | none => exact ⟨rfl, rfl⟩
    | some s =>
      have hsk : ¬ 1 < sk.length := by
        rcases h with h | h
        · rw [hs] at h
          cases h
        · omega
      simp only [hsk, if_false, and_self]
  · intro s hs hsk
    unfold Tag3.set_session_key
    simp only [hs, hsk, if_true]
    cases hkl : sym.KEY_LENGTH self.sym with
    | none => exact Or.inl ⟨by simp, rfl⟩
    | some kl =>
      simp only
      cases hrun : ops.run s pass (kl >>> 3) with
      | error e => exact Or.inl ⟨by simp, rfl⟩
      | ok key =>
        simp only
        cases hbl : sym.BLOCK_LENGTH self.sym with
        | none => exact Or.inl ⟨by simp, rfl⟩
        | some bl =>
          simp only
          cases henc : sym.use_normal_CFB_encrypt self.sym sk key
              (List.replicate (bl >>> 3) 0) with
          | error e => exact Or.inl ⟨by simp, rfl⟩
          | ok c =>
            refine Or.inr ⟨kl, bl, key, c, rfl, rfl, ?_, ?_, rfl, rfl⟩
            · rw [← hshift, hrun]
            · rw [← hshift, henc]

/-- Counterexample to C30: the body 05 09 02 read into a default packet (version 4,
sym-id 0) is rejected for its reserved S2K type, and the packet then has version 5 and
sym-id 9. -/
theorem Tag3.actual_read_rejected_unchanged_counterexample :
    Tag3.rejects_type_octet Sample.s2k (Tag3.default : Tag3 S2K.Specifier) [5, 9, 2] 0 3 ∧
    (Tag3.default : Tag3 S2K.Specifier).version = 4 ∧
    (Tag3.default : Tag3 S2K.Specifier).sym = 0 ∧
    (Tag3.actual_read Sample.s2k (Tag3.default : Tag3 S2K.Specifier) [5, 9, 2] 0 3).state.1.version
      = 5 ∧
    (Tag3.actual_read Sample.s2k (Tag3.default : Tag3 S2K.Specifier) [5, 9, 2] 0 3).state.1.sym
      = 9 := by
  refine ⟨⟨2, _, rfl, rfl, rfl⟩, rfl, rfl, rfl, rfl⟩

/-- Claim C30, amended: when `Tag3::actual_read` rejects a body because of its S2K type
octet, the S2K, the encrypted session key and the caller's offset are unchanged, but
version and sym-id have already been overwritten with the first two octets of the
body. -/
theorem Tag3.actual_read_rejected_state {σ : Type} (ops : S2KOps σ) (self : Tag3 σ)
    (data : ByteString) (pos length : Nat) (v a t : Octet)
    (hsize : data.length < SIZE_MOD)
    (hv : data[pos]? = some v) (ha : data[pos + 1]? = some a) (ht : data[pos + 2]? = some t)
    (hbad : ¬(t = 0 ∨ t = 1 ∨ t = 3)) :
    Tag3.rejects_type_octet ops self data pos length ∧
    (Tag3.actual_read ops self data pos length).state.1.s2k = self.s2k ∧
    (Tag3.actual_read ops self data pos length).state.1.esk = self.esk ∧
    (Tag3.actual_read ops self data pos length).state.1.tag = self.tag ∧
    (Tag3.actual_read ops self data pos length).state.2 = pos ∧
    (Tag3.actual_read ops self data pos length).state.1.version = v ∧
    (Tag3.actual_read ops self data pos length).state.1.sym = a := by
  obtain ⟨msg, hmsg⟩ := Tag3.s2k_for_type_error data t hbad
  have h2 : pos + 2 < data.length := (List.getElem?_eq_some.mp ht).1
  have e2 : (pos + 2) % SIZE_MOD = pos + 2 := Nat.mod_eq_of_lt (by omega)
  have hr := Tag3.actual_read_of_type_error ops self data pos length v a t _ hsize hv ha ht hmsg
  refine ⟨⟨t, _, ?_, hmsg, ?_⟩, ?_⟩
  · rw [e2, string_at_of_getElem? ht]
  · rw [hr]
  · rw [hr]
    exact ⟨rfl, rfl, rfl, rfl, rfl, rfl⟩

/-- Witness for the amended C30: the body 05 09 02 read into a default packet. -/
theorem Tag3.actual_read_rejected_state_witness :
    (Tag3.actual_read Sample.s2k (Tag3.default : Tag3 S2K.Specifier) [5, 9, 2] 0 3).state.1.s2k
      = none ∧
    (Tag3.actual_read Sample.s2k (Tag3.default : Tag3 S2K.Specifier) [5, 9, 2] 0 3).state.2
      = 0 :=
  have h := Tag3.actual_read_rejected_state Sample.s2k (Tag3.default : Tag3 S2K.Specifier)
    [5, 9, 2] 0 3 5 9 2 (by decide) rfl rfl rfl (by decide)
  ⟨h.2.1, h.2.2.2.2.1⟩

end Packet

/-! ## Helpers of `common/includes` -/

theorem hex_value_none_iff (c : Octet) :
    hex_value c = none ↔
      ¬((48 ≤ c.val ∧ c.val ≤ 57) ∨ (97 ≤ c.val ∧ c.val ≤ 102) ∨ (65 ≤ c.val ∧ c.val ≤ 70)) := by
  unfold hex_value
  by_cases h1 : 48 ≤ c.val ∧ c.val ≤ 57
  · simp [h1]
  · by_cases h2 : 97 ≤ c.val ∧ c.val ≤ 102
    · simp [h1, h2]
    · by_cases h3 : 65 ≤ c.val ∧ c.val ≤ 70
      · simp [h1, h2, h3]
      · simp [h1, h2, h3]

theorem unhexlify_pairs_rejects :
    ∀ s : ByteString, s.length % 2 = 0 → (∃ c ∈ s, hex_value c = none) →
      ∃ msg, unhexlify_pairs s = .error (.runtime_error msg)
  | [], _, hbad => by
    obtain ⟨c, hc, -⟩ := hbad
    cases hc
  | [_], hlen, _ => by
    simp at hlen
  | h :: l :: rest, hlen, hbad => by
    unfold unhexlify_pairs
    cases hh : hex_value h with
    | none => exact ⟨_, rfl⟩
    | some a =>
      cases hl : hex_value l with
      | none => exact ⟨_, rfl⟩
      | some b =>
        have hrest : ∃ c ∈ rest, hex_value c = none := by
          obtain ⟨c, hc, hcv⟩ := hbad
          rcases List.mem_cons.mp hc with rfl | hc
          · rw [hh] at hcv
            cases hcv
          · rcases List.mem_cons.mp hc with rfl | hc
            · rw [hl] at hcv
              cases hcv
            · exact ⟨c, hc, hcv⟩
        have hlen' : rest.length % 2 = 0 := by
          simp only [List.length_cons] at hlen
          omega
        obtain ⟨msg, hmsg⟩ := unhexlify_pairs_rejects rest hlen' hrest
        exact ⟨msg, by simp only [hmsg]⟩

/-- Claim C21: `unhexlify` fails with a `std::runtime_error` for every input of odd
length and for every input that contains a character that is not a hex digit (`0`-`9`,
`a`-`f`, `A`-`F`), whichever position of a digit pair it has. -/
theorem unhexlify_rejects (s : ByteString) :
    (s.length % 2 = 1 → ∃ msg, unhexlify s = .error (.runtime_error msg)) ∧
    ((∃ c ∈ s, ¬((48 ≤ c.val ∧ c.val ≤ 57) ∨ (97 ≤ c.val ∧ c.val ≤ 102) ∨
        (65 ≤ c.val ∧ c.val ≤ 70))) →
      ∃ msg, unhexlify s = .error (.runtime_error msg)) ∧
    (∀ (a b : ByteString) (c : Octet), hex_value c = none →
      (∃ msg, unhexlify (a ++ c :: b) = .error (.runtime_error msg))) := by
  have hodd : s.length % 2 = 1 → ∃ msg, unhexlify s = .error (.runtime_error msg) := by
    intro h
    exact ⟨_, by rw [unhexlify, if_pos h]⟩
  have hany : ∀ t : ByteString, (∃ c ∈ t, hex_value c = none) →
      ∃ msg, unhexlify t = .error (.runtime_error msg) := by
    intro t hbad
    by_cases hlen : t.length % 2 = 1
    · exact ⟨_, by rw [unhexlify, if_pos hlen]⟩
    · obtain ⟨msg, hmsg⟩ := unhexlify_pairs_rejects t (by omega) hbad
      exact ⟨msg, by rw [unhexlify, if_neg hlen, hmsg]⟩
  refine ⟨hodd, ?_, ?_⟩
  · rintro ⟨c, hc, hcv⟩
    exact hany s ⟨c, hc, (hex_value_none_iff c).mpr hcv⟩
  · intro a b c hcv
    exact hany _ ⟨c, by simp, hcv⟩

set_option maxRecDepth 100000 in
theorem toint_makebin_all : ∀ i : Octet, toint_text 2 (makebin i.val 8) 0 = i.val := by
  decide

set_option maxRecDepth 100000 in
theorem toint_numeral_8_all : ∀ i : Octet, toint_text 8 (numeral 8 i.val) 0 = i.val := by
  decide

set_option maxRecDepth 100000 in
theorem toint_numeral_10_all : ∀ i : Octet, toint_text 10 (numeral 10 i.val) 0 = i.val := by
  decide

set_option maxRecDepth 100000 in
theorem toint_numeral_16_all : ∀ i : Octet, toint_text 16 (numeral 16 i.val) 0 = i.val := by
  decide

/-- Claim C22: for every `i` in 0..255, `toint` parses the numeral of `i` back to `i`:
`makebin(i, 8)` in base 2 and the octal, decimal and hexadecimal numerals in base 8, 10
and 16; `toint` of the empty string is 0 in the bases 2, 8, 10, 16 and 256. -/
theorem toint_numeral (i : Octet) :
    toint (makebin i.val 8) 2 = .ok i.val ∧
    toint (numeral 8 i.val) 8 = .ok i.val ∧
    toint (numeral 10 i.val) 10 = .ok i.val ∧
    toint (numeral 16 i.val) 16 = .ok i.val ∧
    toint [] 2 = .ok 0 ∧ toint [] 8 = .ok 0 ∧ toint [] 10 = .ok 0 ∧ toint [] 16 = .ok 0 ∧
    toint [] 256 = .ok 0 := by
  have h2 : ∀ s, toint s 2 = .ok (toint_text 2 s 0) := fun s => rfl
  have h8 : ∀ s, toint s 8 = .ok (toint_text 8 s 0) := fun s => rfl
  have h10 : ∀ s, toint s 10 = .ok (toint_text 10 s 0) := fun s => rfl
  have h16 : ∀ s, toint s 16 = .ok (toint_text 16 s 0) := fun s => rfl
  refine ⟨?_, ?_, ?_, ?_, rfl, rfl, rfl, rfl, rfl⟩
  · rw [h2, toint_makebin_all i]
  · rw [h8, toint_numeral_8_all i]
  · rw [h10, toint_numeral_10_all i]
  · rw [h16, toint_numeral_16_all i]

theorem big_endian_value_append (a b : ByteString) :
    big_endian_value (a ++ b) = big_endian_value a * 256 ^ b.length + big_endian_value b := by
  induction a with
  | nil => simp [big_endian_value]
  | cons c rest ih =>
    rw [List.cons_append, big_endian_value, big_endian_value, ih, List.length_append, pow_add]
    ring

theorem big_endian_value_lt (s : ByteString) : big_endian_value s < 256 ^ s.length := by
  induction s with
  | nil => simp [big_endian_value]
  | cons c rest ih =>
    simp only [big_endian_value, List.length_cons]
    have hc : c.val ≤ 255 := by omega
    have hpos : 0 < 256 ^ rest.length := Nat.pow_pos (by decide)
    calc c.val * 256 ^ rest.length + big_endian_value rest
        < c.val * 256 ^ rest.length + 256 ^ rest.length := by omega
      _ = (c.val + 1) * 256 ^ rest.length := by ring
      _ ≤ 256 * 256 ^ rest.length := Nat.mul_le_mul_right _ (by omega)
      _ = 256 ^ (rest.length + 1) := by ring

theorem toint_fold_mod (s : ByteString) :
    ∀ value : Nat,
      s.foldl (fun value c => (value * 256 + c.val) % UINT64_MOD) value % UINT64_MOD
        = (value * 256 ^ s.length + big_endian_value s) % UINT64_MOD := by
  induction s with
  | nil =>
    intro value
    simp [big_endian_value]
  | cons c rest ih =>
    intro value
    rw [List.foldl_cons, ih]
    simp only [big_endian_value, List.length_cons]
    have h1 : (value * 256 + c.val) % UINT64_MOD * 256 ^ rest.length % UINT64_MOD
        = (value * 256 + c.val) * 256 ^ rest.length % UINT64_MOD := by
      rw [Nat.mul_mod, Nat.mod_mod, ← Nat.mul_mod]
    rw [Nat.add_mod, h1, ← Nat.add_mod]
    congr 1
    ring

theorem toint_fold_lt (s : ByteString) :
    s.foldl (fun value c => (value * 256 + c.val) % UINT64_MOD) 0 < UINT64_MOD := by
  have key : ∀ (t : ByteString) (value : Nat), value < UINT64_MOD →
      t.foldl (fun value c => (value * 256 + c.val) % UINT64_MOD) value < UINT64_MOD := by
    intro t
    induction t with
    | nil => intro value h; exact h
    | cons c rest ih =>
      intro value _
      rw [List.foldl_cons]
      exact ih _ (Nat.mod_lt _ (by decide))
  exact key s 0 (by decide)

/-- Claim C23: `toint(s, 256)` is the big-endian value of `s` modulo `2 ^ 64`; for a string
of 8 octets or more it is the big-endian value of its last 8 octets. -/
theorem toint_256_big_endian (s : ByteString) :
    toint s 256 = .ok (big_endian_value s % 2 ^ 64) ∧
    (8 ≤ s.length → toint s 256 = .ok (big_endian_value (s.drop (s.length - 8)))) := by
  have hM : UINT64_MOD = 2 ^ 64 := by decide
  have hval : toint s 256 = .ok (big_endian_value s % UINT64_MOD) := by
    have h1 : toint s 256
        = .ok (s.foldl (fun value c => (value * 256 + c.val) % UINT64_MOD) 0) := rfl
    rw [h1, ← Nat.mod_eq_of_lt (toint_fold_lt s), toint_fold_mod]
    simp
  constructor
  · rw [hval, hM]
  · intro h8
    rw [hval]
    congr 1
    have hsplit : s = s.take (s.length - 8) ++ s.drop (s.length - 8) :=
      (List.take_append_drop _ _).symm
    have hlen : (s.drop (s.length - 8)).length = 8 := by
      rw [List.length_drop]
      omega
    have hlt := big_endian_value_lt (s.drop (s.length - 8))
    rw [hlen] at hlt
    have h256 : (256 : Nat) ^ 8 = UINT64_MOD := by decide
    rw [h256] at hlt
    conv_lhs => rw [hsplit, big_endian_value_append, hlen, h256]
    rw [Nat.mul_add_mod_of_lt hlt]

theorem little_end_loop_groups (k : Nat) (hk : 0 < k) :
    ∀ (L : List ByteString) (fuel : Nat) (out : ByteString),
      (∀ g ∈ L, g.length = k) → L.length ≤ fuel →
      little_end_loop k fuel L.flatten out = L.reverse.flatten ++ out := by
  intro L
  induction L with
  | nil =>
    intro fuel out _ _
    cases fuel <;> simp [little_end_loop]
  | cons g rest ih =>
    intro fuel out hg hfuel
    obtain ⟨fuel', rfl⟩ : ∃ f, fuel = f + 1 := ⟨fuel - 1, by simp at hfuel; omega⟩
    have hglen : g.length = k := hg g (List.mem_cons_self _ _)
    have hne : ¬ (g :: rest).flatten = [] := by
      intro h
      have : g = [] := by
        simp only [List.flatten_cons, List.append_eq_nil] at h
        exact h.1
      rw [this] at hglen
      simp at hglen
      omega
    have htake : (g :: rest).flatten.take k = g := by
      rw [List.flatten_cons, ← hglen, List.take_left]
    have hdrop : (g :: rest).flatten.drop k = rest.flatten := by
      rw [List.flatten_cons, ← hglen, List.drop_left]
    rw [little_end_loop, if_neg hne, htake, hdrop,
      ih fuel' (g ++ out) (fun x hx => hg x (List.mem_cons_of_mem _ hx))
        (by simp at hfuel; omega)]
    simp

theorem length_le_flatten (k : Nat) (hk : 0 < k) (L : List ByteString)
    (hg : ∀ g ∈ L, g.length = k) : L.length ≤ L.flatten.length := by
  induction L with
  | nil => simp
  | cons g rest ih =>
    have := ih (fun x hx => hg x (List.mem_cons_of_mem _ hx))
    have hglen := hg g (List.mem_cons_self _ _)
    simp only [List.length_cons, List.flatten_cons, List.length_append]
    omega

theorem little_end_loop_bytes :
    ∀ (s : ByteString) (fuel : Nat) (out : ByteString), s.length ≤ fuel →
      little_end_loop 1 fuel s out = s.reverse ++ out := by
  intro s
  induction s with
  | nil =>
    intro fuel out _
    cases fuel <;> simp [little_end_loop]
  | cons c rest ih =>
    intro fuel out hfuel
    obtain ⟨fuel', rfl⟩ : ∃ f, fuel = f + 1 := ⟨fuel - 1, by simp at hfuel; omega⟩
    rw [little_end_loop, if_neg (by simp)]
    simp only [List.drop_succ_cons, List.drop_zero, List.take_succ_cons, List.take_zero]
    rw [ih fuel' _ (by simp at hfuel; omega)]
    simp

/-- Claim C24: `little_end` reverses the order of the bytes and keeps each byte: in base
256 the output is the reversed string, in base 16 the reversed sequence of the
2-character groups, in base 2 the reversed sequence of the 8-character groups;
applied twice to a whole number of groups it returns the input; every other base is a
`std::runtime_error`. -/
theorem little_end_reverses :
    (∀ s : ByteString, little_end s 256 = .ok s.reverse) ∧
    (∀ L : List ByteString, (∀ g ∈ L, g.length = 2) →
      little_end L.flatten 16 = .ok L.reverse.flatten) ∧
    (∀ L : List ByteString, (∀ g ∈ L, g.length = 8) →
      little_end L.flatten 2 = .ok L.reverse.flatten) ∧
    (∀ s t : ByteString, little_end s 256 = .ok t → little_end t 256 = .ok s) ∧
    (∀ (L : List ByteString) (t : ByteString), (∀ g ∈ L, g.length = 2) →
      little_end L.flatten 16 = .ok t → little_end t 16 = .ok L.flatten) ∧
    (∀ (L : List ByteString) (t : ByteString), (∀ g ∈ L, g.length = 8) →
      little_end L.flatten 2 = .ok t → little_end t 2 = .ok L.flatten) ∧
    (∀ (s : ByteString) (base : Nat), base ≠ 2 → base ≠ 16 → base ≠ 256 →
      ∃ msg, little_end s base = .error (.runtime_error msg)) := by
  have h256 : ∀ s : ByteString, little_end s 256 = .ok s.reverse := by
    intro s
    have : little_end s 256 = .ok (little_end_loop 1 s.length s []) := rfl
    rw [this, little_end_loop_bytes s s.length [] (Nat.le_refl _)]
    simp
  have h16 : ∀ L : List ByteString, (∀ g ∈ L, g.length = 2) →
      little_end L.flatten 16 = .ok L.reverse.flatten := by
    intro L hg
    have : little_end L.flatten 16
        = .ok (little_end_loop 2 L.flatten.length L.flatten []) := rfl
    rw [this, little_end_loop_groups 2 (by decide) L _ [] hg
      (length_le_flatten 2 (by decide) L hg)]
    simp
  have h2 : ∀ L : List ByteString, (∀ g ∈ L, g.length = 8) →
      little_end L.flatten 2 = .ok L.reverse.flatten := by
    intro L hg
    have : little_end L.flatten 2
        = .ok (little_end_loop 8 L.flatten.length L.flatten []) := rfl
    rw [this, little_end_loop_groups 8 (by decide) L _ [] hg
      (length_le_flatten 8 (by decide) L hg)]
    simp
  refine ⟨h256, h16, h2, ?_, ?_, ?_, ?_⟩
  · intro s t hst
    rw [h256] at hst
    cases hst
    rw [h256, List.reverse_reverse]
  · intro L t hg hst
    rw [h16 L hg] at hst
    cases hst
    rw [h16 L.reverse (fun g hgm => hg g (List.mem_reverse.mp hgm)), List.reverse_reverse]
  · intro L t hg hst
    rw [h2 L hg] at hst
    cases hst
    rw [h2 L.reverse (fun g hgm => hg g (List.mem_reverse.mp hgm)), List.reverse_reverse]
  · intro s base hb2 hb16 hb256
    exact ⟨_, by rw [little_end, if_neg hb2, if_neg hb16, if_neg hb256]⟩

namespace Packet

/-- A successful `Tag3::actual_read` ends with the assignment `pos = orig_pos + length`,
whatever offset the S2K reader returned. -/
theorem Tag3.actual_read_offset_of_success {σ : Type} (ops : S2KOps σ) (self : Tag3 σ)
    (data : ByteString) (pos length : Nat)
    (h : (Tag3.actual_read ops self data pos length).thrown = none) :
    (Tag3.actual_read ops self data pos length).state.2 = (pos + length) % SIZE_MOD := by
  revert h
  unfold Tag3.actual_read
  dsimp only
  repeat' split
  all_goals first
    | (intro h; cases h; done)
    | (intro _; rfl)

/-- Counterexample to C31: a `Tag19::actual_read` at offset 4 of three octets of data,
with length 20.  `substr` throws `std::out_of_range` and the offset stays 4; it is not
moved to 24. -/
theorem Tag19.actual_read_offset_counterexample :
    ((⟨19, 20, []⟩ : Tag19).actual_read [1, 2, 3] 4 20).thrown = some .out_of_range ∧
    ((⟨19, 20, []⟩ : Tag19).actual_read [1, 2, 3] 4 20).state.2 = 4 ∧
    ((⟨19, 20, []⟩ : Tag19).actual_read [1, 2, 3] 4 20).state.2 ≠ 4 + 20 := by
  refine ⟨rfl, rfl, ?_⟩
  decide

/-- Claim C31, amended: every successful `Tag3::actual_read` and every successful
`Tag19::actual_read` leaves the offset at `start + length` as `size_type` computes it
(modulo `2 ^ 64`, so exactly `start + length` when that fits), whatever the body holds
and whatever offset the S2K reader returned; `Tag19::actual_read` succeeds exactly
when `start <= |data|`, and when it fails the offset is left at `start`. -/
theorem actual_read_offset {σ : Type} (ops : S2KOps σ) (self3 : Tag3 σ) (self19 : Tag19)
    (data : ByteString) (pos length : Nat) :
    ((Tag3.actual_read ops self3 data pos length).thrown = none →
      (Tag3.actual_read ops self3 data pos length).state.2 = (pos + length) % SIZE_MOD ∧
      (pos + length < SIZE_MOD →
        (Tag3.actual_read ops self3 data pos length).state.2 = pos + length)) ∧
    ((Tag19.actual_read self19 data pos length).thrown = none →
      (Tag19.actual_read self19 data pos length).state.2 = (pos + length) % SIZE_MOD ∧
      (pos + length < SIZE_MOD →
        (Tag19.actual_read self19 data pos length).state.2 = pos + length)) ∧
    ((Tag19.actual_read self19 data pos length).thrown = none ↔ pos ≤ data.length) ∧
    ((Tag19.actual_read self19 data pos length).thrown ≠ none →
      (Tag19.actual_read self19 data pos length).thrown = some .out_of_range ∧
      (Tag19.actual_read self19 data pos length).state = (self19, pos)) := by
  have h19 : (pos ≤ data.length →
        Tag19.actual_read self19 data pos length
          = ⟨(self19.set_hash ((data.drop pos).take length), (pos + length) % SIZE_MOD), none⟩) ∧
      (data.length < pos →
        Tag19.actual_read self19 data pos length = ⟨(self19, pos), some .out_of_range⟩) := by
    constructor
    · intro hp
      simp [Tag19.actual_read, substr_of_le length hp]
    · intro hp
      simp [Tag19.actual_read, substr, hp]
  refine ⟨?_, ?_, ?_, ?_⟩
  · intro h
    have key := Tag3.actual_read_offset_of_success ops self3 data pos length h
    exact ⟨key, fun hfit => by rw [key, Nat.mod_eq_of_lt hfit]⟩
  · intro h
    by_cases hp : pos ≤ data.length
    · rw [h19.1 hp]
      exact ⟨rfl, fun hfit => Nat.mod_eq_of_lt hfit⟩
    · rw [h19.2 (by omega)] at h
      cases h
  · constructor
    · intro h
      by_contra hp
      rw [h19.2 (by omega)] at h
      cases h
    · intro hp
      rw [h19.1 hp]
  · intro h
    by_cases hp : pos ≤ data.length
    · rw [h19.1 hp] at h
      exact absurd rfl h
    · rw [h19.2 (by omega)]
      exact ⟨rfl, rfl⟩

/-- Claim C32: on a packet for which `actual_valid` returns `SUCCESS`, with a `Sym`
namespace in which every recognised sym-id has a key length and a block length, the
S2K is present and the sym-id has both entries, so `get_s2k_clone` returns the clone
and `get_session_key(pass)` is what `S2K::run` and the CFB decryption return; on a
packet without S2K, a default-constructed one included, both go through the null
pointer. -/
theorem Tag3.valid_packet_reaches_no_error {σ : Type} (ops : S2KOps σ) (sym : SymOps)
    (self : Tag3 σ) (pass : ByteString)
    (hentries : ∀ a, sym.valid a = true →
      (∃ kl, sym.KEY_LENGTH a = some kl) ∧ ∃ bl, sym.BLOCK_LENGTH a = some bl) :
    (Tag3.actual_valid ops sym self = Status.SUCCESS →
      ∃ s kl bl, self.s2k = some s ∧ sym.KEY_LENGTH self.sym = some kl ∧
        sym.BLOCK_LENGTH self.sym = some bl ∧
        Tag3.get_s2k_clone ops self = .ok (ops.clone s) ∧
        Tag3.get_session_key ops sym self pass =
          (match ops.run s pass (kl / 8) with
            | .error e => .error e
            | .ok out =>
              match self.esk with
              | some e => sym.use_normal_CFB_decrypt self.sym e out (List.replicate (bl / 8) 0)
              | none => .ok ([self.sym] ++ out))) ∧
    (self.s2k = none →
      Tag3.get_session_key ops sym self pass = .error .null_dereference ∧
      Tag3.get_s2k_clone ops self = .error .null_dereference) ∧
    (Tag3.get_session_key ops sym (Tag3.default : Tag3 σ) pass = .error .null_dereference ∧
      Tag3.get_s2k_clone ops (Tag3.default : Tag3 σ) = .error .null_dereference) := by
  have hshift : ∀ n : Nat, n >>> 3 = n / 8 := fun n => by rw [Nat.shiftRight_eq_div_pow]
  refine ⟨?_, ?_, ⟨rfl, rfl⟩⟩
  · intro hvalid
    unfold Tag3.actual_valid at hvalid
    by_cases hver : self.version ≠ 4
    · rw [if_pos hver] at hvalid
      cases hvalid
    · rw [if_neg hver] at hvalid
      cases hsym : sym.valid self.sym with
      | false =>
        simp only [hsym, Bool.not_false, if_true] at hvalid
        cases hvalid
      | true =>
        cases hs : self.s2k with
        | none =>
          simp only [hsym, hs, Bool.not_true] at hvalid
          cases hvalid
        | some s =>
          obtain ⟨⟨kl, hkl⟩, ⟨bl, hbl⟩⟩ := hentries self.sym hsym
          refine ⟨s, kl, bl, rfl, hkl, hbl, ?_, ?_⟩
          · simp only [Tag3.get_s2k_clone, hs]
          · simp only [Tag3.get_session_key, hs, hkl, hbl, hshift]
  · intro hs
    simp only [Tag3.get_session_key, Tag3.get_s2k_clone, hs, and_self]

/-- Witness for C32: AES-256 (sym-id 9) with a salted S2K over a known hash is valid, and
`get_s2k_clone` returns its S2K. -/
theorem Tag3.valid_packet_reaches_no_error_witness :
    Tag3.actual_valid Sample.s2k Sample.sym
        (⟨3, 4, 9, some (.salted 2 [1, 2, 3, 4, 5, 6, 7, 8]), none⟩ : Tag3 S2K.Specifier)
      = Status.SUCCESS ∧
    ∃ s, Tag3.get_s2k_clone Sample.s2k
        (⟨3, 4, 9, some (.salted 2 [1, 2, 3, 4, 5, 6, 7, 8]), none⟩ : Tag3 S2K.Specifier)
      = .ok (Sample.s2k.clone s) :=
  let ⟨s, _, _, _, _, _, hc, _⟩ :=
    (Tag3.valid_packet_reaches_no_error Sample.s2k Sample.sym
      (⟨3, 4, 9, some (.salted 2 [1, 2, 3, 4, 5, 6, 7, 8]), none⟩ : Tag3 S2K.Specifier) [112]
      (by
        intro a h
        simp only [Sample.sym, Bool.or_eq_true, decide_eq_true_eq] at h
        rcases h with (h | h) | h <;> simp [Sample.sym, h])).1 rfl
  ⟨rfl, s, hc⟩

/-- Claim C33: a default-constructed `Tag19` has tag 19, size 20 and an empty hash, so
`actual_raw` is empty and `actual_valid` returns `INVALID_SHA1_HASH`; a
default-constructed `Tag3` has tag 3, version 4, no S2K and no encrypted session key,
and `actual_valid` returns `INVALID_SYMMETRIC_ENCRYPTION_ALGORITHM` or `MISSING_S2K`,
not `SUCCESS`. -/
theorem default_packets_invalid {σ : Type} (ops : S2KOps σ) (sym : SymOps) :
    (∃ t, Tag19.default = .ok t ∧ t.tag = 19 ∧ t.size = 20 ∧ t.hash = [] ∧
      t.actual_raw = [] ∧ t.actual_valid = .ok Status.INVALID_SHA1_HASH) ∧
    (Tag3.default : Tag3 σ).tag = 3 ∧
    (Tag3.default : Tag3 σ).version = 4 ∧
    (Tag3.default : Tag3 σ).s2k = none ∧
    (Tag3.default : Tag3 σ).esk = none ∧
    Tag3.actual_valid ops sym (Tag3.default : Tag3 σ) ≠ Status.SUCCESS ∧
    (Tag3.actual_valid ops sym (Tag3.default : Tag3 σ)
        = Status.INVALID_SYMMETRIC_ENCRYPTION_ALGORITHM ∨
      Tag3.actual_valid ops sym (Tag3.default : Tag3 σ) = Status.MISSING_S2K) := by
  have h3 : Tag3.actual_valid ops sym (Tag3.default : Tag3 σ)
        = Status.INVALID_SYMMETRIC_ENCRYPTION_ALGORITHM ∨
      Tag3.actual_valid ops sym (Tag3.default : Tag3 σ) = Status.MISSING_S2K := by
    cases hsym : sym.valid 0 with
    | false =>
      left
      simp [Tag3.actual_valid, Tag3.default, hsym]
    | true =>
      right
      simp [Tag3.actual_valid, Tag3.default, hsym]
  refine ⟨⟨⟨19, 20, []⟩, rfl, rfl, rfl, rfl, rfl, rfl⟩, rfl, rfl, rfl, rfl, ?_, h3⟩
  rcases h3 with h | h <;> rw [h] <;> decide

/-- Claim C34, as the code has it: for a body at offset `pos` whose S2K type octet is
not 0, 1, 2 or 3, `Tag3::actual_read` fails with the message
"Unknown S2K ID encountered: " followed by `std::to_string(data[0])`, the first octet
of the data as a signed `char`, not by the decimal value of the type octet. -/
theorem Tag3.actual_read_unknown_id_message {σ : Type} (ops : S2KOps σ) (self : Tag3 σ)
    (data : ByteString) (pos length : Nat) (v a t c : Octet)
    (hsize : data.length < SIZE_MOD)
    (hv : data[pos]? = some v) (ha : data[pos + 1]? = some a) (ht : data[pos + 2]? = some t)
    (hc : data[0]? = some c)
    (hbad : ¬(t = 0 ∨ t = 1 ∨ t = 2 ∨ t = 3)) :
    (Tag3.actual_read ops self data pos length).thrown
      = some (.runtime_error ("Unknown S2K ID encountered: " ++ to_string_char c)) := by
  have h0 : t ≠ S2K.ID.SIMPLE_S2K := fun h => hbad (Or.inl h)
  have h1 : t ≠ S2K.ID.SALTED_S2K := fun h => hbad (Or.inr (Or.inl h))
  have h2 : t ≠ 2 := fun h => hbad (Or.inr (Or.inr (Or.inl h)))
  have h3 : t ≠ S2K.ID.ITERATED_AND_SALTED_S2K := fun h => hbad (Or.inr (Or.inr (Or.inr h)))
  have hk : Tag3.s2k_for_type data t
      = .error (.runtime_error ("Unknown S2K ID encountered: " ++ to_string_char c)) := by
    unfold Tag3.s2k_for_type
    rw [if_neg h0, if_neg h1, if_neg h2, if_neg h3, string_at_of_getElem? hc]
  rw [Tag3.actual_read_of_type_error ops self data pos length v a t _ hsize hv ha ht hk]

/-- Witness for C34: the body 04 09 05 at offset 0 has the type octet 5; the message ends
in 4, the version octet. -/
theorem Tag3.actual_read_unknown_id_message_witness :
    (Tag3.actual_read Sample.s2k (Tag3.default : Tag3 S2K.Specifier) [4, 9, 5] 0 3).thrown
      = some (.runtime_error "Unknown S2K ID encountered: 4") ∧
    (Tag3.actual_read Sample.s2k (Tag3.default : Tag3 S2K.Specifier) [4, 9, 5] 0 3).thrown
      ≠ some (.runtime_error "Unknown S2K ID encountered: 5") := by
  have h := Tag3.actual_read_unknown_id_message Sample.s2k
    (Tag3.default : Tag3 S2K.Specifier) [4, 9, 5] 0 3 4 9 5 4
    (by decide) rfl rfl rfl rfl (by decide)
  have e : ("Unknown S2K ID encountered: " ++ to_string_char 4 : String)
      = "Unknown S2K ID encountered: 4" := by decide
  rw [e] at h
  rw [h]
  exact ⟨rfl, by decide⟩

end Packet

end OpenPGP
